import Mathlib

set_option autoImplicit false

/-!
Verification of the ripdoc core against its specification.

Rust strings are modelled as lists of characters (`Str`).  Character
classification and lowercasing are modelled at the ASCII level (the
claims under scrutiny do not hinge on non-ASCII behaviour); the model
functions carry doc comments naming the Rust functions they embed.
-/

abbrev Str := List Char

/-- ASCII model of Rust `char::to_lowercase` as used by `str::to_lowercase`:
letters `A`..`Z` map to `a`..`z`, every other character is fixed. -/
def lowerChar (c : Char) : Char :=
  if h : 65 ≤ c.toNat ∧ c.toNat ≤ 90 then
    Char.ofNatAux (c.toNat + 32) (Or.inl (by omega))
  else c

/-- Boolean substring containment, the model of Rust `str::contains` with a
string pattern and of `Regex::is_match` for a single literal. -/
def isInfixB (a b : Str) : Bool := decide (a <:+: b)

/-- Model of Rust `str::to_lowercase`. -/
def lowerStr (s : Str) : Str := s.map lowerChar

/-- ASCII model of Rust `char::is_alphanumeric`. -/
def isAlnumChar (c : Char) : Bool :=
  (48 ≤ c.toNat && c.toNat ≤ 57) || (65 ≤ c.toNat && c.toNat ≤ 90)
    || (97 ≤ c.toNat && c.toNat ≤ 122)

/-- ASCII model of Rust `char::is_whitespace`. -/
def isWsChar (c : Char) : Bool :=
  c == ' ' || c == '\t' || c == '\n' || c == '\r'

/-- Model of Rust `str::trim`: drop whitespace from both ends. -/
def trimStr (s : Str) : Str :=
  ((s.dropWhile isWsChar).reverse.dropWhile isWsChar).reverse

/-- Model of Rust `str::trim_start`. -/
def trimStartStr (s : Str) : Str := s.dropWhile isWsChar

/-- Characters kept by `strip_symbols_preserving_pipes`
(src/core_api/pattern.rs): alphanumerics, whitespace, `_` and `|`. -/
def keepChar (c : Char) : Bool :=
  isAlnumChar c || isWsChar c || c == '_' || c == '|'

/-- Embedding of `strip_symbols_preserving_pipes` (src/core_api/pattern.rs). -/
def strip_symbols_preserving_pipes (s : Str) : Str := s.filter keepChar

/-- Regex metacharacters escaped by `escape_regex_preserving_pipes`
(src/core_api/pattern.rs, the match arm listing `\\ . + * ? ( ) [ ] { } ^ $`). -/
def isRegexMeta (c : Char) : Bool :=
  c == '\\' || c == '.' || c == '+' || c == '*' || c == '?' || c == '(' || c == ')'
    || c == '[' || c == ']' || c == '{' || c == '}' || c == '^' || c == '$'

/-- Embedding of `escape_regex_preserving_pipes` (src/core_api/pattern.rs):
`|` is copied, the metacharacters gain a backslash, all else is copied. -/
def escape_regex_preserving_pipes : Str → Str
  | [] => []
  | c :: rest =>
    (if c = '|' then [c] else if isRegexMeta c then ['\\', c] else [c])
      ++ escape_regex_preserving_pipes rest

/-- Prepend a character onto the head piece of a split result. -/
def consHead (c : Char) : List Str → List Str
  | [] => [[c]]
  | h :: t => (c :: h) :: t

/-- Split a character list at every occurrence of a single separator
character, Rust `str::split(sep)` semantics (keeps empty pieces). -/
def splitOnChar (sep : Char) : Str → List Str
  | [] => [[]]
  | c :: rest =>
    if c = sep then [] :: splitOnChar sep rest
    else consHead c (splitOnChar sep rest)

/-- Split on `|`, the alternation separator of OR queries. -/
def splitOnPipe : Str → List Str := splitOnChar '|'

/-- Semantics of the regex patterns produced by `escape_regex_preserving_pipes`:
such a pattern is an alternation of escaped literals.  The parser returns the
list of literal alternatives, or `none` when the pattern is not of that shape
(an unescaped metacharacter or a dangling backslash).  This models what the
external `regex` crate compiles the escaped pattern into. -/
def parseAlternation : Str → Option (List Str)
  | [] => some [[]]
  | c :: rest =>
    if c = '\\' then
      match rest with
      | [] => none
      | d :: rest2 => (parseAlternation rest2).map (consHead d)
    else if c = '|' then (parseAlternation rest).map (fun alts => [] :: alts)
    else if isRegexMeta c then none
    else (parseAlternation rest).map (consHead c)

/-- Case folding: the identity when matching case-sensitively, lowercasing
otherwise (the source lowercases both sides, or passes `(?i)` to the regex). -/
def foldCase (cs : Bool) (s : Str) : Str := if cs then s else lowerStr s

/-- Model of the unanchored search performed by `Regex::is_match` on an
alternation of literals: some alternative occurs as a substring.  The
`(?i)` flag used for case-insensitive queries is modelled by lowercasing
both the alternatives and the text. -/
def regexLitsMatch (alts : List Str) (cs : Bool) (text : Str) : Bool :=
  alts.any fun a => isInfixB (foldCase cs a) (foldCase cs text)

/-- Embedding of `SearchDomain` (src/core_api/search/types.rs), a bitset over
four domains, modelled as four booleans. -/
structure SearchDomainM where
  names : Bool
  docs : Bool
  paths : Bool
  signatures : Bool
deriving DecidableEq, Repr

/-- Bitset emptiness, `SearchDomain::is_empty`. -/
def SearchDomainM.isEmptyDom (d : SearchDomainM) : Bool :=
  !(d.names || d.docs || d.paths || d.signatures)

/-- Embedding of `SearchDomain::default()`: NAMES | DOCS | SIGNATURES. -/
def searchDomainDefault : SearchDomainM :=
  { names := true, docs := true, paths := false, signatures := true }

/-- Embedding of `SearchOptions::ensure_domains` (src/core_api/search/types.rs). -/
def ensure_domains (d : SearchDomainM) : SearchDomainM :=
  if d.isEmptyDom then searchDomainDefault else d

/-- Embedding of `SearchOptions` (src/core_api/search/types.rs); only the
fields read by `filter_entries` are carried. -/
structure SearchOptionsM where
  query : Str
  domains : SearchDomainM
  case_sensitive : Bool
deriving Repr

/-- Embedding of `V2Entry` (src/v2/entry.rs); `kind`, `source` and
`public_api` are not read by `filter_entries` and are omitted. -/
structure V2EntryM where
  path : Str
  docs : Option Str
  signature : Option Str
deriving DecidableEq, Repr

/-- Helper for `V2Entry::name`: the suffix after the last occurrence of
`::` (Rust `rsplit("::").next()`), scanning from the right. -/
def goAfterLastColons (whole : Str) : Str → Str → Str
  | [], _ => whole
  | ':' :: ':' :: _, acc => acc
  | r :: rs, acc => goAfterLastColons whole rs (r :: acc)

/-- Embedding of `V2Entry::name` (src/v2/entry.rs). -/
def V2EntryM.nameOf (e : V2EntryM) : Str :=
  goAfterLastColons e.path e.path.reverse []

/-- Embedding of `filter_simple` (src/v2/search.rs). -/
def filter_simple (entries : List V2EntryM) (query : Str) (domains : SearchDomainM)
    (cs : Bool) : List V2EntryM :=
  entries.filter fun e =>
    let m1 := domains.names
      && isInfixB (foldCase cs query) (foldCase cs e.nameOf)
    let m2 := domains.paths
      && isInfixB (foldCase cs query) (foldCase cs e.path)
    let m3 := domains.docs && (match e.docs with
      | some d => isInfixB (strip_symbols_preserving_pipes (foldCase cs query))
          (strip_symbols_preserving_pipes (foldCase cs d))
      | none => false)
    let m4 := domains.signatures && (match e.signature with
      | some sg => isInfixB (strip_symbols_preserving_pipes (foldCase cs query))
          (strip_symbols_preserving_pipes (foldCase cs sg))
      | none => false)
    m1 || m2 || m3 || m4

/-- Embedding of `filter_or` (src/v2/search.rs).  The two `Regex::new` calls
are modelled by `parseAlternation` on the escaped pattern; a compile failure
falls back to `filter_simple` exactly as in the source. -/
def filter_or (entries : List V2EntryM) (pattern : Str) (domains : SearchDomainM)
    (cs : Bool) : List V2EntryM :=
  match parseAlternation (escape_regex_preserving_pipes pattern) with
  | none => filter_simple entries pattern domains cs
  | some alts =>
    let strippedAlts : Option (List Str) :=
      if domains.docs || domains.signatures then
        parseAlternation
          (escape_regex_preserving_pipes (strip_symbols_preserving_pipes pattern))
      else none
    entries.filter fun e =>
      let m1 := domains.names && regexLitsMatch alts cs e.nameOf
      let m2 := domains.paths && regexLitsMatch alts cs e.path
      let rest := match strippedAlts with
        | some salts =>
          (domains.docs && (match e.docs with
            | some d => regexLitsMatch salts cs (strip_symbols_preserving_pipes d)
            | none => false))
          || (domains.signatures && (match e.signature with
            | some sg => regexLitsMatch salts cs (strip_symbols_preserving_pipes sg)
            | none => false))
        | none => false
      m1 || m2 || rest

/-- Embedding of `filter_entries` (src/v2/search.rs). -/
def filter_entries (entries : List V2EntryM) (options : SearchOptionsM) : List V2EntryM :=
  let domains := ensure_domains options.domains
  let query := trimStr options.query
  if query = [] then []
  else if query.contains '|' then filter_or entries query domains options.case_sensitive
  else filter_simple entries query domains options.case_sensitive

/-- Specification-side predicate (written from the claim/spec wording, for
comparison with `filter_entries`): one literal alternative matches the entry
in one enabled domain by substring containment, with the docs/signature
normalization of spec §4.1 and case folding when `case_sensitive` is false. -/
def altDomainMatch (dom : SearchDomainM) (cs : Bool) (alt : Str) (e : V2EntryM) : Bool :=
  (dom.names && isInfixB (foldCase cs alt) (foldCase cs e.nameOf))
  || (dom.paths && isInfixB (foldCase cs alt) (foldCase cs e.path))
  || (dom.docs && (match e.docs with
    | some d => isInfixB (strip_symbols_preserving_pipes (foldCase cs alt))
        (strip_symbols_preserving_pipes (foldCase cs d))
    | none => false))
  || (dom.signatures && (match e.signature with
    | some sg => isInfixB (strip_symbols_preserving_pipes (foldCase cs alt))
        (strip_symbols_preserving_pipes (foldCase cs sg))
    | none => false))

/-- Specification-side matching (written from the claim wording): a query
holding `|` matches as an OR of its literal `|`-separated alternatives, a
query without `|` matches by plain substring containment. -/
def searchSpecMatch (q : Str) (dom : SearchDomainM) (cs : Bool) (e : V2EntryM) : Bool :=
  let alts := if q.contains '|' then splitOnPipe q else [q]
  alts.any fun alt => altDomainMatch dom cs alt e

/-! ## Claim C4: gap-marker dedup (src/render/utils.rs, src/render/core.rs) -/

/-- The gap marker `// ...` (constant `GAP_MARKER`, src/render/utils.rs). -/
def gapMarkerStr : Str := ("// ...").data

/-- A line that consists of the gap marker modulo indentation: the loop test
`line.trim_start() == GAP_MARKER` of `dedup_gap_markers`. -/
def isGapLine (l : Str) : Bool := decide (trimStartStr l = gapMarkerStr)

/-- A blank line: the loop test `line.trim().is_empty()` (all whitespace). -/
def isBlankLine (l : Str) : Bool := l.all isWsChar

/-- Strip one trailing carriage return, as Rust `str::lines` does per line. -/
def stripCR (l : Str) : Str := if l.getLast? = some '\r' then l.dropLast else l

/-- Model of Rust `str::lines`: split on `\n`, drop a final empty piece, strip
one trailing `\r` from each piece. -/
def rustLines (s : Str) : List Str :=
  if s = [] then []
  else
    let parts := splitOnChar '\n' s
    let parts := if parts.getLast? = some [] then parts.dropLast else parts
    parts.map stripCR

/-- Pure split on `\n` (drop a final empty piece, no `\r` handling): the
textual lines of an output string, used to state the gap-idempotence
property. -/
def pureLines (s : Str) : List Str :=
  if s = [] then []
  else
    let parts := splitOnChar '\n' s
    if parts.getLast? = some [] then parts.dropLast else parts

/-- The loop of `dedup_gap_markers` (src/render/utils.rs), with its two state
flags `in_gap_block` and `emitted_blank_after_gap` made explicit. -/
def dedupLines : List Str → Bool → Bool → List Str
  | [], _, _ => []
  | line :: rest, in_gap, emitted_blank =>
    if isGapLine line then
      if in_gap then dedupLines rest in_gap emitted_blank
      else line :: dedupLines rest true false
    else if isBlankLine line then
      if in_gap then
        if emitted_blank then dedupLines rest in_gap emitted_blank
        else line :: dedupLines rest in_gap true
      else line :: dedupLines rest in_gap emitted_blank
    else line :: dedupLines rest false emitted_blank

/-- Emit each line followed by a newline, as the loop body pushes
`line` then `'\n'`. -/
def joinLinesNL (ls : List Str) : Str :=
  ls.foldr (fun l acc => l ++ '\n' :: acc) []

/-- Embedding of `dedup_gap_markers` (src/render/utils.rs). -/
def dedup_gap_markers (s : Str) : Str :=
  joinLinesNL (dedupLines (rustLines s) false false)

/-- Embedding of `Renderer::apply_postprocessors` (src/render/core.rs:232). -/
def apply_postprocessors (rendered : Str) : Str := dedup_gap_markers rendered

/-- Embedding of `Renderer::render_rust` (src/render/core.rs:213): the external
`rustfmt` formatter is an oracle; on failure the unformatted text is kept; both
paths run `apply_postprocessors`. -/
def render_rust (formatter : Str → Option Str) (raw : Str) : Str :=
  match formatter raw with
  | some formatted => apply_postprocessors formatted
  | none => apply_postprocessors raw

/-- Gap idempotence: among the non-blank lines, no two adjacent ones both
consist of the gap marker. -/
def noAdjacentGaps (ls : List Str) : Prop :=
  List.Chain' (fun a b => ¬(isGapLine a = true ∧ isGapLine b = true))
    (ls.filter (fun l => !(isBlankLine l)))

/-! ## Claim C5: source extraction (src/render/utils.rs `extract_source`) -/

/-- Filesystem path, modelled as an absolute flag plus components. -/
structure RPath where
  absolute : Bool
  comps : List String
deriving DecidableEq, Repr

/-- Rust `Path::join`: an absolute right operand replaces the left. -/
def rpathJoin (root p : RPath) : RPath :=
  if p.absolute then p else ⟨root.absolute, root.comps ++ p.comps⟩

/-- Rust `Path::is_relative`. -/
def RPath.isRel (p : RPath) : Bool := !p.absolute

/-- Join path components with `/` for display. -/
def joinComps : List String → Str
  | [] => []
  | [c] => c.data
  | c :: rest => c.data ++ '/' :: joinComps rest

/-- Rust `Path::display`. -/
def RPath.display (p : RPath) : Str :=
  (if p.absolute then ('/') :: joinComps p.comps else joinComps p.comps)

/-- A rustdoc span: filename plus 1-based inclusive begin and end lines
(`span.begin.0` and `span.end.0` in the source). -/
structure SpanM where
  filename : RPath
  beginLine : Nat
  endLine : Nat
deriving Repr

/-- Filesystem oracle: which paths exist (`Path::exists`), what reading
returns (`none` models a failing `fs::read_to_string`), and the display text
of the read error when it fails. -/
structure FsModel where
  pathExists : RPath → Bool
  readToString : RPath → Option Str
  readErrMsg : RPath → Str

/-- The component-stripping loop of `extract_source`: repeatedly drop the
leading component of the span filename and re-join against the source root
until a candidate exists. -/
def firstExistingSuffix (fs : FsModel) (root : RPath) : List String → Option RPath
  | [] => none
  | _ :: rest =>
    let candidate := rpathJoin root ⟨false, rest⟩
    if fs.pathExists candidate then some candidate
    else firstExistingSuffix fs root rest

/-- The path-resolution heuristic at the top of `extract_source`
(src/render/utils.rs:118-139). -/
def resolveSpanPath (fs : FsModel) (span : SpanM) (source_root : Option RPath) : RPath :=
  if fs.pathExists span.filename then span.filename
  else match source_root with
    | none => span.filename
    | some root =>
      let joined := rpathJoin root span.filename
      if fs.pathExists joined then joined
      else if span.filename.isRel then
        match firstExistingSuffix fs root span.filename.comps with
        | some p => p
        | none => span.filename
      else span.filename

/-- The per-line inner-doc conversion of `extract_source`: a line whose
trimmed start is `//!` (resp. `/*!`) has that first occurrence replaced by
`///` (resp. `/**`). -/
def convertInnerDoc (l : Str) : Str :=
  let ws := l.takeWhile isWsChar
  let rest := l.dropWhile isWsChar
  if rest.take 3 = ("//!").data then ws ++ ("///").data ++ rest.drop 3
  else if rest.take 3 = ("/*!").data then ws ++ ("/**").data ++ rest.drop 3
  else l

/-- Join lines with `\n` separators and no trailing newline
(Rust `Vec::join("\n")`). -/
def joinNLsep : List Str → Str
  | [] => []
  | [l] => l
  | l :: rest => l ++ '\n' :: joinNLsep rest

/-- First phase of `sanitize_extracted_snippet`: pop trailing blank lines,
then comment out the last line when it is a standalone attribute. -/
def sanitizePhaseA (ls : List Str) : List Str :=
  let l1 := (ls.reverse.dropWhile isBlankLine).reverse
  match l1.getLast? with
  | some lastLine =>
    if (trimStr lastLine).take 1 = ("#").data then
      l1.dropLast ++ [("// ").data ++ lastLine]
    else l1
  | none => l1

/-- Item keywords recognised by the lookahead of `sanitize_extracted_snippet`. -/
def startsItemKeyword (t : Str) : Bool :=
  ("pub ").data.isPrefixOf t || ("impl ").data.isPrefixOf t
    || ("fn ").data.isPrefixOf t || ("struct ").data.isPrefixOf t
    || ("enum ").data.isPrefixOf t || ("trait ").data.isPrefixOf t
    || ("type ").data.isPrefixOf t || ("const ").data.isPrefixOf t
    || ("static ").data.isPrefixOf t || ("use ").data.isPrefixOf t
    || ("mod ").data.isPrefixOf t

/-- Lookahead of `sanitize_extracted_snippet`: within eight lines, find the
first line that is neither blank nor an attribute and test whether it starts
with an item keyword. -/
def lookaheadGo : List Str → Bool
  | [] => false
  | l :: rest =>
    let t := trimStartStr l
    if t = [] ∨ t.take 1 = ("#").data then lookaheadGo rest
    else startsItemKeyword t

/-- Eight-line lookahead window. -/
def lookaheadHasItem (ls : List Str) : Bool := lookaheadGo (ls.take 8)

/-- Comment out leading attribute lines until the first non-attribute
non-blank line (the final loop of `sanitize_extracted_snippet`). -/
def commentLeadingAttrs : List Str → List Str
  | [] => []
  | l :: rest =>
    if (trimStr l).take 1 = ("#").data then
      (("// ").data ++ l) :: commentLeadingAttrs rest
    else if isBlankLine l then l :: commentLeadingAttrs rest
    else l :: rest

/-- Second phase of `sanitize_extracted_snippet`: when the first non-blank
line is an attribute and no item keyword follows within eight lines, comment
out the leading attribute block. -/
def sanitizePhaseB (ls : List Str) : List Str :=
  let fb := (ls.takeWhile isBlankLine).length
  match ls.drop fb with
  | [] => ls
  | l :: _ =>
    if (trimStr l).take 1 = ("#").data then
      if lookaheadHasItem (ls.drop fb) then ls
      else ls.take fb ++ commentLeadingAttrs (ls.drop fb)
    else ls

/-- Embedding of `sanitize_extracted_snippet` (src/render/utils.rs:184). -/
def sanitize_extracted_snippet (snippet : Str) : Str :=
  joinNLsep (sanitizePhaseB (sanitizePhaseA (rustLines snippet)))

/-- The one-line `// ripdoc:error: …` annotation emitted when the read fails. -/
def ripdocErrorLine (fs : FsModel) (p : RPath) : Str :=
  ("// ripdoc:error: failed to read source file ").data
    ++ p.display ++ (": ").data ++ fs.readErrMsg p

/-- Embedding of `extract_source` (src/render/utils.rs:114-182); the return
type mirrors the Rust `io::Result<String>`. -/
def extract_source (fs : FsModel) (span : SpanM) (source_root : Option RPath) :
    Except Unit Str :=
  let path := resolveSpanPath fs span source_root
  match fs.readToString path with
  | none => .ok (ripdocErrorLine fs path)
  | some file_content =>
    let lines := rustLines file_content
    if span.beginLine = 0 ∨ span.beginLine > lines.length then .ok []
    else
      let start_line := span.beginLine - 1
      let end_line := min span.endLine lines.length
      let extracted := (List.range (end_line - start_line)).map
        (fun i => convertInnerDoc (lines.getD (start_line + i) []))
      .ok (sanitize_extracted_snippet (joinNLsep extracted))

/-! ## Claims C8 and C10: skelebuild state persistence (src/skelebuild/state.rs,
with a duplicate of `load`/`save` in src/skelebuild/mod.rs) -/

/-- Embedding of `SkeleTarget` (src/skelebuild/state.rs).  The source field
`private` is reserved in Lean and is carried as `priv_items`. -/
structure SkeleTarget where
  path : String
  implementation : Bool
  raw_source : Bool
  priv_items : Bool
deriving DecidableEq, Repr

/-- Embedding of `SkeleRawSource` (src/skelebuild/state.rs). -/
structure SkeleRawSource where
  file : String
  canonical_key : Option String
  start_line : Option Nat
  end_line : Option Nat
deriving DecidableEq, Repr

/-- Embedding of `SkeleEntry` (src/skelebuild/state.rs). -/
inductive SkeleEntry where
  | target (t : SkeleTarget)
  | injection (content : String)
  | rawSource (r : SkeleRawSource)
deriving DecidableEq, Repr

/-- Embedding of `SkeleState` (src/skelebuild/state.rs). -/
structure SkeleState where
  output_path : Option String
  entries : List SkeleEntry
  plain : Bool
deriving DecidableEq, Repr

/-- Embedding of the `Default` impl for `SkeleState` (state.rs:24-32):
no output path, no entries, `plain = true`. -/
def skeleStateDefault : SkeleState := ⟨none, [], true⟩

/-- Filesystem path for the state file, a component list. -/
abbrev FPath := List String

/-- Embedding of `SkeleState::state_file` (state.rs:181-191): the platform
state directory (an oracle, from the external `dirs` crate) extended by
`ripdoc/skelebuild.json`. -/
def state_file (stateDir : FPath) : FPath :=
  stateDir ++ ["ripdoc", "skelebuild.json"]

/-- Embedding of `SkeleState::load` (state.rs:194-202).  The filesystem and
serde are oracles: `exists_` models `Path::exists`, `readFile` models
`fs::read_to_string` (`none` = failure, folded to the empty string by
`unwrap_or_default`), `parse` models `serde_json::from_str` (`none` = parse
error, folded to the default state by `unwrap_or_default`). -/
def SkeleState.load (exists_ : Bool) (readFile : Option String)
    (parse : String → Option SkeleState) : SkeleState :=
  if exists_ then
    let content := readFile.getD ""
    (parse content).getD skeleStateDefault
  else skeleStateDefault

/-- Filesystem operations a save can perform. -/
inductive FsOp where
  | createDirAll (p : FPath)
  | writeFile (p : FPath) (content : String)
  | renameFile (src dst : FPath)
deriving DecidableEq, Repr

/-- Embedding of `SkeleState::save` (state.rs:205-213) as the trace of
filesystem operations it performs: create the parent directory
(`fs::create_dir_all`), then write the serialized state directly to the
state-file path (`fs::write`).  Serialization
(`serde_json::to_string_pretty`) is an oracle that may fail, propagated
with `?` as in the source. -/
def SkeleState.save (serialize : SkeleState → Except Unit String)
    (stateDir : FPath) (st : SkeleState) : Except Unit (List FsOp) :=
  match serialize st with
  | .error e => .error e
  | .ok content =>
    .ok [FsOp.createDirAll ((state_file stateDir).dropLast),
         FsOp.writeFile (state_file stateDir) content]

/-! ## Claim C3: render-selection closure (src/core_api/search/selection.rs,
src/render/core.rs) -/

/-- Embedding of `SearchItemKind` (src/core_api/search/types.rs), with a `k`
prefix on the variant names. -/
inductive SearchItemKind where
  | kCrate | kModule | kStruct | kUnion | kEnum | kEnumVariant | kField
  | kTrait | kTraitAlias | kFunction | kMethod | kTraitMethod | kAssocConst
  | kAssocType | kConstant | kStatic | kTypeAlias | kUse | kMacroDecl
  | kProcMacroDecl | kPrimitive | kImplTarget
deriving DecidableEq, Repr

/-- Embedding of `SearchResult` (src/core_api/search/types.rs); the fields the
selection builder reads.  Item identifiers are `Nat`. -/
structure SearchResultM where
  item_id : Nat
  kind : SearchItemKind
  ancestors : List Nat
deriving DecidableEq, Repr

/-- The slice of `rustdoc_types::Type` the impl-cohesion step inspects. -/
inductive C3Type where
  | resolvedPath (id : Nat)
  | otherType
deriving DecidableEq, Repr

/-- The slice of `rustdoc_types::ItemEnum` the impl-cohesion step inspects. -/
inductive C3Inner where
  | implBlock (forTy : C3Type)
  | nonImpl
deriving DecidableEq, Repr

/-- A crate item as seen by the selection builder. -/
structure C3Item where
  inner : C3Inner
deriving DecidableEq, Repr

/-- The search index as consumed by `build_render_selection`: its entry list
(`SearchIndex::entries`) and the crate item map (`crate_data().index`). -/
structure SearchIndexM where
  entries : List SearchResultM
  items : Nat → Option C3Item

/-- Modelled from the spec: `SearchIndex::get` from the missing
core_api/search/index.rs — the index record of the item with the given id
(§4.1: one IndexEntry per visible item). -/
def SearchIndexM.get (idx : SearchIndexM) (id : Nat) : Option SearchResultM :=
  idx.entries.find? (fun e => e.item_id == id)

/-- Embedding of `RenderSelection` (src/render/core.rs:20-30); `HashSet<Id>`
is modelled as `Finset Nat`.  The source field `matches` is a reserved word
in Lean and is carried as `matchesSet`. -/
structure RenderSelectionM where
  matchesSet : Finset Nat
  context : Finset Nat
  expanded : Finset Nat
  full_source : Finset Nat
deriving DecidableEq

/-- Embedding of `RenderSelection::new` (src/render/core.rs:32-52): all
match and full-source identifiers are inserted into the context. -/
def RenderSelectionM.new (ms context expanded full_source : Finset Nat) :
    RenderSelectionM :=
  ⟨ms, context ∪ ms ∪ full_source, expanded, full_source⟩

/-- The impl-cohesion step of the first loop of `build_render_selection`
(selection.rs:24-34): when the result is an impl block for a resolved path,
the target id and the target's indexed ancestors also join the context. -/
def selPhase1Ctx (idx : SearchIndexM) (r : SearchResultM) (c1 : Finset Nat) :
    Finset Nat :=
  match idx.items r.item_id with
  | some item => match item.inner with
    | C3Inner.implBlock (C3Type.resolvedPath tid) =>
      match idx.get tid with
      | some te => insert tid c1 ∪ te.ancestors.toFinset
      | none => insert tid c1
    | _ => c1
  | none => c1

/-- First loop of `build_render_selection` (selection.rs:19-35): insert every
result and its ancestors, and for an impl-block result also its target type
and the target's ancestors (impl cohesion). -/
def selPhase1 (idx : SearchIndexM) :
    List SearchResultM → Finset Nat × Finset Nat → Finset Nat × Finset Nat
  | [], acc => acc
  | r :: rest, (m, c) =>
    selPhase1 idx rest (insert r.item_id m,
      selPhase1Ctx idx r (insert r.item_id c ∪ r.ancestors.toFinset))

/-- Second loop of `build_render_selection` (selection.rs:37-44): full-source
ids join the match and context sets together with their indexed ancestors. -/
def selPhase2 (idx : SearchIndexM) (fs : Finset Nat) (m c : Finset Nat) :
    Finset Nat × Finset Nat :=
  (m ∪ fs,
   c ∪ fs ∪ fs.biUnion (fun id => match idx.get id with
     | some e => e.ancestors.toFinset
     | none => ∅))

/-- The container kinds of the `expand_containers` step (selection.rs:49-57). -/
def isContainerKind : SearchItemKind → Bool
  | .kCrate | .kModule | .kStruct | .kTrait => true
  | _ => false

/-- The container collection of `build_render_selection` (selection.rs:47-59). -/
def containersOf : List SearchResultM → Finset Nat
  | [] => ∅
  | r :: rest =>
    if isContainerKind r.kind then insert r.item_id (containersOf rest)
    else containersOf rest

/-- Model of `Iterator::position`: index of the first element satisfying the
predicate. -/
def positionOf (p : Nat → Bool) : List Nat → Option Nat
  | [] => none
  | a :: rest => if p a then some 0 else (positionOf p rest).map (· + 1)

/-- The entries loop of `build_render_selection` (selection.rs:63-76): for an
entry with an ancestor in `containers`, add the entry and every later ancestor
to the context, the later ancestors also to `descendant_containers`. -/
def selExpandLoop (containers : Finset Nat) :
    List SearchResultM → Finset Nat × Finset Nat → Finset Nat × Finset Nat
  | [], acc => acc
  | e :: rest, (c, dc) =>
    match positionOf (fun a => decide (a ∈ containers)) e.ancestors with
    | some pos =>
      let tail := (e.ancestors.drop (pos + 1)).toFinset
      selExpandLoop containers rest (insert e.item_id c ∪ tail, dc ∪ tail)
    | none => selExpandLoop containers rest (c, dc)

/-- Embedding of `build_render_selection` (src/core_api/search/selection.rs). -/
def build_render_selection (idx : SearchIndexM) (results : List SearchResultM)
    (expand_containers : Bool) (full_source : Finset Nat) : RenderSelectionM :=
  let p1 := selPhase1 idx results (∅, ∅)
  let p2 := selPhase2 idx full_source p1.1 p1.2
  if expand_containers then
    let containers := containersOf results
    if containers = ∅ then RenderSelectionM.new p2.1 p2.2 ∅ full_source
    else
      let p3 := selExpandLoop containers idx.entries (p2.2, ∅)
      RenderSelectionM.new p2.1 p3.1 (containers ∪ p3.2) full_source
  else RenderSelectionM.new p2.1 p2.2 ∅ full_source

/-! ## Claims C2, C6, C9: the render walk (src/render/state.rs,
src/render/core.rs, src/render/items/mod.rs, module.rs, use_stmt.rs) -/

/-- Embedding of `FilterMatch` (src/render/utils.rs); the source variant
`Prefix` is carried as `PrefixMatch`. -/
inductive FilterMatch where
  | Hit
  | PrefixMatch
  | Suffix
  | Miss
deriving DecidableEq, Repr

/-- The slice of `rustdoc_types::Use` read by `resolve_use`
(src/render/items/use_stmt.rs): the source path, the binding name, the
optional resolved target id, and the glob flag. -/
structure UseM where
  source : Str
  name : Str
  target : Option Nat
  is_glob : Bool
deriving DecidableEq, Repr

/-- The item payloads the render walk distinguishes
(src/render/items/mod.rs:168-180).  `module` and `useItem` recurse;
`leaf` covers the kinds with dedicated leaf renderers (struct, enum, trait,
function, constant, type alias, macro declarations and proc-macros), whose
text is produced by the `emitLeaf` oracle of the renderer — those renderers
never touch `visited`, `filter_matched` or `current_file`, and with no
active selection they leave the gap flag alone; `implItem` is an impl block
(exempt from the visited check but rendered by the catch-all arm as the
empty string); `otherInner` is any remaining kind (the catch-all arm). -/
inductive RInner where
  | module (children : List Nat)
  | useItem (imp : UseM)
  | leaf
  | implItem
  | otherInner
deriving DecidableEq, Repr

/-- The slice of `rustdoc_types::Item` the walk reads: id, name, public
visibility, span (reduced to its displayed filename — the only part the
walk itself consumes), docs and the payload. -/
structure RItem where
  id : Nat
  name : Option Str
  visPublic : Bool
  span : Option Str
  docs : Option Str
  inner : RInner
deriving DecidableEq, Repr

/-- The slice of `rustdoc_types::Crate` the walk reads: the root id and the
item index. -/
structure CrateM where
  root : Nat
  index : Nat → Option RItem

/-- Embedding of `RipdocError` restricted to the variant the render path
returns (src/render/error.rs / state.rs:92). -/
inductive RenderErr where
  | FilterNotMatched (filter : Str)
deriving DecidableEq

/-- Embedding of `Renderer` (src/render/core.rs:81-104).  The `formatter`,
`format` and `render_auto_impls` fields are not read by the walk embedded
here (formatting is embedded separately as `render_rust`).  `visited` is the
`Option<Arc<Mutex<HashSet<Id>>>>` field installed by `with_visited`;
`initial_current_file` is the field installed by `with_current_file`; both
are carried faithfully.  The oracle fields stand for collaborators outside
this walk: `emitLeaf` for the dedicated leaf renderers, `leafGapEffect` for
their net effect on the pending-gap flag when a selection is active (their
`mark_skipped`/gap calls are no-ops without one), `docsFn` and
`isReservedWord` for the missing render/syntax.rs helpers, `extractOracle`
for `extract_source` at an item's span under `source_root` (`none` models
`Err`), and `looksLike` for `extracted_source_looks_like_item`. -/
structure Renderer where
  render_private_items : Bool
  render_source_labels : Bool
  filter : Str
  selection : Option RenderSelectionM
  plain : Bool
  initial_current_file : Option Str
  visited : Option (Finset Nat)
  emitLeaf : RItem → Str
  leafGapEffect : Nat → Bool → Bool
  docsFn : RItem → Str
  isReservedWord : Str → Bool
  extractOracle : Nat → Option Str
  looksLike : Nat → Str → Bool

/-- Embedding of `Renderer::with_visited` (src/render/core.rs:189-192). -/
def with_visited (cfg : Renderer) (v : Finset Nat) : Renderer :=
  { cfg with visited := some v }

/-- Embedding of `Renderer::with_current_file` (src/render/core.rs:183-186). -/
def with_current_file (cfg : Renderer) (f : Option Str) : Renderer :=
  { cfg with initial_current_file := f }

/-- Embedding of `RenderState` (src/render/state.rs:51-64): the mutable walk
state.  `gap_state` is the `GapState` enum with `Pending = true` and
`Clear = false`. -/
structure St where
  filter_matched : Bool
  gap_state : Bool
  visited : Finset Nat
  current_file : Option Str
deriving DecidableEq

/-- Embedding of `RenderState::new` (src/render/state.rs:68-77): the flag is
down, no gap is pending, the visited set is empty (the configured shared
`visited` is not consulted), and `current_file` is `None` (the configured
`initial_current_file` is not consulted). -/
def StInit : St := ⟨false, false, ∅, none⟩

/-- Embedding of `ppush` (src/render/utils.rs:9-15). -/
def ppush (ppfx name : Str) : Str :=
  if ppfx = [] then name else ppfx ++ ':' :: ':' :: name

/-- Model of Rust `str::split("::")`: split at each non-overlapping
occurrence of the two-colon separator. -/
def splitOnColons : Str → List Str
  | [] => [[]]
  | ':' :: ':' :: rest => [] :: splitOnColons rest
  | c :: rest => consHead c (splitOnColons rest)

/-- Join components with the two-colon separator (inverse direction of
`splitOnColons`, used by `escape_path`). -/
def joinColons : List Str → Str
  | [] => []
  | [s] => s
  | s :: rest => s ++ ':' :: ':' :: joinColons rest

/-- Embedding of `escape_path` (src/render/utils.rs:18-33); the missing
render/syntax.rs `is_reserved_word` is the renderer's oracle. -/
def escape_path (cfg : Renderer) (p : Str) : Str :=
  joinColons ((splitOnColons p).map (fun seg =>
    if seg = ("crate").data ∨ seg = ("self").data ∨ seg = ("super").data
        ∨ seg = ("Self").data then seg
    else if cfg.isReservedWord seg then 'r' :: '#' :: seg
    else seg))

/-- Modelled from the spec: `render_name` from the missing render/syntax.rs —
the item's name, raw-escaped when it is a reserved word. -/
def render_name (cfg : Renderer) (item : RItem) : Str :=
  let n := item.name.getD []
  if cfg.isReservedWord n then 'r' :: '#' :: n else n

/-- Modelled from the spec: `render_vis` from the missing render/syntax.rs —
the `pub ` qualifier of a public item (the embedding models the public /
non-public distinction only). -/
def render_vis (item : RItem) : Str :=
  if item.visPublic then ("pub ").data else []

/-- Embedding of `RenderState::selection_context_contains`
(src/render/state.rs:104-109). -/
def selection_context_contains (cfg : Renderer) (id : Nat) : Bool :=
  match cfg.selection with
  | some s => decide (id ∈ s.context)
  | none => true

/-- Embedding of `RenderState::selection_expands`
(src/render/state.rs:120-125). -/
def selection_expands (cfg : Renderer) (id : Nat) : Bool :=
  match cfg.selection with
  | some s => decide (id ∈ s.expanded)
  | none => true

/-- Modelled from the spec: `selection_is_full_source` (referenced from the
item renderers; its definition is not among the sources) — membership of the
id in the selection's full-source set, `false` with no selection. -/
def selection_is_full_source (cfg : Renderer) (id : Nat) : Bool :=
  match cfg.selection with
  | some s => decide (id ∈ s.full_source)
  | none => false

/-- Embedding of `RenderState::selection_allows_child`
(src/render/state.rs:128-133). -/
def selection_allows_child (cfg : Renderer) (parent_id child_id : Nat) : Bool :=
  if cfg.selection.isNone then true
  else selection_expands cfg parent_id || selection_context_contains cfg child_id

/-- Embedding of `RenderState::filter_match` (src/render/state.rs:156-175):
an unnamed item is `Prefix`; otherwise the filter components are compared
against the item-path components below the crate root (`skip(1)`). -/
def filter_match (cfg : Renderer) (ppfx : Str) (item : RItem) :
    FilterMatch :=
  match item.name with
  | none => FilterMatch.PrefixMatch
  | some name =>
    let filter_components := splitOnColons cfg.filter
    let item_components := (splitOnColons (ppush ppfx name)).drop 1
    if filter_components = item_components then FilterMatch.Hit
    else if item_components.isPrefixOf filter_components then
      FilterMatch.PrefixMatch
    else if filter_components.isPrefixOf item_components then
      FilterMatch.Suffix
    else FilterMatch.Miss

/-- Embedding of `RenderState::should_filter` (src/render/state.rs:136-153):
the root is never filtered, an empty filter never filters, a `Hit` raises
`filter_matched`, and only a `Miss` filters the item out. -/
def should_filter (cfg : Renderer) (root : Nat) (ppfx : Str)
    (item : RItem) (st : St) : Bool × St :=
  if item.id = root then (false, st)
  else if cfg.filter = [] then (false, st)
  else match filter_match cfg ppfx item with
    | FilterMatch.Hit => (false, { st with filter_matched := true })
    | FilterMatch.PrefixMatch => (false, st)
    | FilterMatch.Suffix => (false, st)
    | FilterMatch.Miss => (true, st)

/-- Embedding of `RenderState::should_module_doc`
(src/render/state.rs:178-186). -/
def should_module_doc (cfg : Renderer) (ppfx : Str) (item : RItem) :
    Bool :=
  if cfg.filter = [] then true
  else match filter_match cfg ppfx item with
    | FilterMatch.Hit => true
    | FilterMatch.Suffix => true
    | _ => false

/-- Embedding of `RenderState::mark_skipped` (src/render/state.rs:189-193). -/
def mark_skipped (cfg : Renderer) (st : St) : St :=
  if cfg.selection.isSome then { st with gap_state := true } else st

/-- Embedding of `RenderState::clear_pending_gap`
(src/render/state.rs:214-216). -/
def clear_pending_gap (st : St) : St := { st with gap_state := false }

/-- Drop the trailing newline characters (`trim_end_matches('\n')`). -/
def dropTrailingNLs (s : Str) : Str :=
  (s.reverse.dropWhile (fun c => decide (c = '\n'))).reverse

/-- Embedding of `starts_with_gap` (src/render/utils.rs:41-47). -/
def starts_with_gap (output : Str) : Bool :=
  match (rustLines output).find? (fun l => !(isBlankLine l)) with
  | some l => isGapLine l
  | none => false

/-- Embedding of `ends_with_gap` (src/render/utils.rs:50-57). -/
def ends_with_gap (output : Str) : Bool :=
  match (splitOnChar '\n' (dropTrailingNLs output)).getLast? with
  | some l => isGapLine l
  | none => false

/-- Embedding of `RenderState::emit_gap_if_needed`
(src/render/state.rs:199-211), returning the extended output and the state:
with an active selection and a pending gap, a gap-marker line is appended
unless the output already ends with one or the next block starts with one,
and the pending flag is cleared either way. -/
def emit_gap_if_needed (cfg : Renderer) (st : St)
    (output indent next_block : Str) : Str × St :=
  if cfg.selection.isSome && st.gap_state then
    (if !(ends_with_gap output) && !(starts_with_gap next_block) then
       output ++ indent ++ gapMarkerStr ++ ['\n']
     else output,
     { st with gap_state := false })
  else (output, st)

/-- Embedding of `is_visible` (src/render/items/mod.rs:202-204). -/
def is_visible (cfg : Renderer) (item : RItem) : Bool :=
  cfg.render_private_items || item.visPublic

/-- The source label of src/render/items/mod.rs:194:
`// ripdoc:source: <path>` followed by a blank line. -/
def sourceLabel (f : Str) : Str :=
  ("// ripdoc:source: ").data ++ f ++ '\n' :: '\n' :: []

/-- Whether the full-source branch of `render_item` fires for this id: the
extract oracle succeeded and the extracted text looks like the item. -/
def extractLooks (cfg : Renderer) (id : Nat) : Bool :=
  match cfg.extractOracle id with
  | some src => cfg.looksLike id src
  | none => false

/-- The extracted text of the oracle (empty when the oracle failed). -/
def extractText (cfg : Renderer) (id : Nat) : Str :=
  (cfg.extractOracle id).getD []

/-- Embedding of `UseResolution` (src/render/items/use_stmt.rs:7-11). -/
inductive UseResolution where
  | Items (items : List Nat)
  | Alias (source aliasName : Str)
  | Simple (source : Str)
deriving DecidableEq, Repr

/-- Embedding of `resolve_alias_use` (src/render/items/use_stmt.rs:120-138). -/
def resolve_alias_use (cfg : Renderer) (imp : UseM) : UseResolution :=
  let source := escape_path cfg imp.source
  let last_segment := ((splitOnColons imp.source).getLast?).getD imp.source
  if imp.name = last_segment then UseResolution.Simple source
  else UseResolution.Alias source
    (if cfg.isReservedWord imp.name then 'r' :: '#' :: imp.name
     else imp.name)

/-- Embedding of `resolve_glob_use` (src/render/items/use_stmt.rs:75-118),
restricted to the payloads of this embedding: a glob of a module expands to
its visible children; the enum-variant arm is not modelled (enums are leaves
here) and folds into the default `source::*` arm together with every other
kind. -/
def resolve_glob_use (cr : CrateM) (cfg : Renderer) (imp : UseM) :
    UseResolution :=
  match imp.target with
  | none => UseResolution.Simple (escape_path cfg imp.source ++ ':' :: ':' :: '*' :: [])
  | some sid =>
    match cr.index sid with
    | none => UseResolution.Simple (escape_path cfg imp.source ++ ':' :: ':' :: '*' :: [])
    | some src_item =>
      match src_item.inner with
      | RInner.module children =>
        UseResolution.Items (children.filter (fun cid =>
          match cr.index cid with
          | some ci => is_visible cfg ci
          | none => false))
      | _ => UseResolution.Simple (escape_path cfg imp.source ++ ':' :: ':' :: '*' :: [])

/-- Embedding of `resolve_use` (src/render/items/use_stmt.rs:59-73). -/
def resolve_use (cr : CrateM) (cfg : Renderer) (imp : UseM) : UseResolution :=
  if imp.is_glob then resolve_glob_use cr cfg imp
  else match imp.target with
    | some id =>
      match cr.index id with
      | some it => UseResolution.Items [it.id]
      | none => resolve_alias_use cfg imp
    | none => resolve_alias_use cfg imp

/-- The pending work of the render walk: a single item
(`render_item`), the child loop of a module body (module.rs:38-55, carrying
the accumulated output), or the expansion loop of a `use`
(use_stmt.rs:27-39). -/
inductive RTask where
  | item (ppfx : Str) (id : Nat) (force_private : Bool)
  | modChildren (ppfx : Str) (parent : Nat) (indent : Str)
      (kids : List Nat) (acc : Str)
  | useKids (ppfx : Str) (kids : List Nat) (acc : Str)
      (any_rendered : Bool)

/-- Embedding of `render_module` (src/render/items/module.rs), with the
recursive walk passed in as `rec`: the full-source early return, the header
(empty in plain mode; otherwise visibility, `mod`, name, brace, and the
module doc lines when `should_module_doc` holds), the child loop, and the
closing brace in non-plain mode. -/
def render_module (cfg : Renderer) (rec : RTask → St → Str × St)
    (ppfx : Str) (item : RItem) (kids : List Nat) (st : St) :
    Str × St :=
  if selection_is_full_source cfg item.id && item.span.isSome
      && (cfg.extractOracle item.id).isSome then
    (extractText cfg item.id ++ '\n' :: '\n' :: [], st)
  else
    let pfx := ppush ppfx (render_name cfg item)
    let head : Str :=
      if cfg.plain then []
      else
        render_vis item ++ ("mod ").data ++ render_name cfg item
          ++ (" \x7b\n").data
          ++ (if should_module_doc cfg pfx item then
                match item.docs with
                | some d =>
                  ((rustLines d).map
                    (fun l => ("    //! ").data ++ l ++ ['\n'])).flatten ++ ['\n']
                | none => []
              else [])
    let indent : Str := if cfg.plain then [] else ("    ").data
    let res := rec (RTask.modChildren pfx item.id indent kids head) st
    (res.1 ++ (if cfg.plain then [] else ("\x7d\n\n").data), res.2)

/-- Embedding of `render_use` (src/render/items/use_stmt.rs:14-57), with the
recursive walk passed in as `rec`: an `Items` resolution renders the
expansion group and then clears any pending gap; `Alias` and `Simple`
resolutions render a `pub use` line after the item's docs (the missing
syntax.rs `docs` helper is the renderer's oracle). -/
def render_use (cr : CrateM) (cfg : Renderer) (rec : RTask → St → Str × St)
    (ppfx : Str) (item : RItem) (imp : UseM) (st : St) : Str × St :=
  match resolve_use cr cfg imp with
  | UseResolution.Items items =>
    let r := rec (RTask.useKids ppfx items [] false) st
    (r.1, clear_pending_gap r.2)
  | UseResolution.Alias source aliasName =>
    (cfg.docsFn item ++ ("pub use ").data ++ source ++ (" as ").data
      ++ aliasName ++ (";\n").data, st)
  | UseResolution.Simple source =>
    (cfg.docsFn item ++ ("pub use ").data ++ source ++ (";\n").data, st)

/-- Whether the payload is a module (`matches!(.., ItemEnum::Module(_))`). -/
def isModuleInner : RInner → Bool
  | RInner.module _ => true
  | _ => false

/-- Whether the payload is an impl block. -/
def isImplInner : RInner → Bool
  | RInner.implItem => true
  | _ => false

/-- Whether the payload is a `use` statement. -/
def isUseInner : RInner → Bool
  | RInner.useItem _ => true
  | _ => false

/-- The tail of `render_item` after the body dispatch
(src/render/items/mod.rs:182-198): insert the id into `visited` when the
output is non-empty, then prepend a source label when labels are enabled,
the item is neither a `use` nor a module in plain mode, it has a span, and
the span filename differs from the tracked current file (updating the
tracker). -/
def finish_item (cfg : Renderer) (item : RItem) (body : Str × St) :
    Str × St :=
  let st3 := if !body.1.isEmpty then
      { body.2 with visited := insert item.id body.2.visited }
    else body.2
  if !body.1.isEmpty && cfg.render_source_labels
      && !(isUseInner item.inner)
      && !(isModuleInner item.inner && cfg.plain)
      && item.span.isSome
      && !(decide (st3.current_file = item.span)) then
    match item.span with
    | some f =>
      (sourceLabel f ++ body.1, { st3 with current_file := some f })
    | none => (body.1, st3)
  else (body.1, st3)

/-- The part of `render_item` after the `should_filter` check
(src/render/items/mod.rs:158-198): the full-source branch, the body
dispatch, and `finish_item`. -/
def render_item_core (cr : CrateM) (cfg : Renderer)
    (rec : RTask → St → Str × St) (ppfx : Str) (item : RItem)
    (st2 : St) : Str × St :=
  if selection_is_full_source cfg item.id && item.span.isSome
      && extractLooks cfg item.id then
    (extractText cfg item.id ++ '\n' :: '\n' :: [],
     { st2 with visited := insert item.id st2.visited })
  else
    finish_item cfg item
      (match item.inner with
       | RInner.module kids =>
         render_module cfg rec ppfx item kids st2
       | RInner.useItem imp =>
         render_use cr cfg rec ppfx item imp st2
       | RInner.leaf =>
         (cfg.emitLeaf item,
          if cfg.selection.isSome then
            { st2 with
              gap_state := cfg.leafGapEffect item.id st2.gap_state }
          else st2)
       | RInner.implItem => ([], st2)
       | RInner.otherInner => ([], st2))

/-- One step of the render walk with the recursion abstracted as `rec`.
The `item` case is `render_item` (src/render/items/mod.rs:124-199) in source
order: visibility, the visited check for non-module/non-impl items, the
module visited insertion with its `is_new` early return, the selection
context check, `should_filter`, and `render_item_core`.  The `modChildren`
and `useKids` cases are the respective child loops. -/
def walkStep (cr : CrateM) (cfg : Renderer)
    (rec : RTask → St → Str × St) : RTask → St → Str × St
  | RTask.item ppfx id force_private, st =>
    match cr.index id with
    | none => ([], st)
    | some item =>
      if !force_private && !(is_visible cfg item) then ([], st)
      else if !(isModuleInner item.inner || isImplInner item.inner)
          && decide (item.id ∈ st.visited) then ([], st)
      else if isModuleInner item.inner && decide (item.id ∈ st.visited) then
        ([], st)
      else
        let st1 := if isModuleInner item.inner then
            { st with visited := insert item.id st.visited }
          else st
        if !(selection_context_contains cfg item.id) then ([], st1)
        else
          let fr := should_filter cfg cr.root ppfx item st1
          if fr.1 then ([], fr.2)
          else render_item_core cr cfg rec ppfx item fr.2
  | RTask.modChildren ppfx parent indent kids acc, st =>
    match kids with
    | [] => (acc, st)
    | k :: rest =>
      if !(selection_allows_child cfg parent k) then
        rec (RTask.modChildren ppfx parent indent rest acc)
          (mark_skipped cfg st)
      else
        match cr.index k with
        | some _ =>
          let r := rec (RTask.item ppfx k false) st
          if !r.1.isEmpty then
            let eg := emit_gap_if_needed cfg r.2 acc indent r.1
            rec (RTask.modChildren ppfx parent indent rest
              (eg.1 ++ r.1)) eg.2
          else
            rec (RTask.modChildren ppfx parent indent rest acc)
              (mark_skipped cfg r.2)
        | none =>
          rec (RTask.modChildren ppfx parent indent rest acc)
            (mark_skipped cfg st)
  | RTask.useKids ppfx kids acc any_rendered, st =>
    match kids with
    | [] => (acc, st)
    | k :: rest =>
      match cr.index k with
      | none => rec (RTask.useKids ppfx rest acc any_rendered) st
      | some _ =>
        let r := rec (RTask.item ppfx k true) st
        if !r.1.isEmpty then
          let eg := emit_gap_if_needed cfg r.2 acc [] r.1
          rec (RTask.useKids ppfx rest (eg.1 ++ r.1) true) eg.2
        else if !any_rendered then
          rec (RTask.useKids ppfx rest acc any_rendered)
            (mark_skipped cfg r.2)
        else
          rec (RTask.useKids ppfx rest acc any_rendered) r.2

/-- The render walk, fuel-indexed: each recursive call of the Rust walk
(render_item from a loop, or the continuation of a loop) consumes one unit
of fuel.  The Rust recursion always terminates (modules cannot be
re-entered thanks to the visited set), so every terminating run is the
value at any sufficiently large fuel; out of fuel, the walk yields nothing. -/
def walk (cr : CrateM) (cfg : Renderer) : Nat → RTask → St → Str × St
  | 0, _, st => ([], st)
  | fuel + 1, task, st => walkStep cr cfg (walk cr cfg fuel) task st

/-- Embedding of `RenderState::render` (src/render/state.rs:80-96): render
the root item with an empty path prefix from the fresh state, then fail
with `FilterNotMatched` when a filter is configured and nothing hit it. -/
def renderCrate (cr : CrateM) (cfg : Renderer) (fuel : Nat) :
    Except RenderErr Str :=
  let r := walk cr cfg fuel (RTask.item [] cr.root false) StInit
  if !cfg.filter.isEmpty && !r.2.filter_matched then
    Except.error (RenderErr.FilterNotMatched cfg.filter)
  else Except.ok r.1

/-- A hit was recorded: some indexed item, other than the root and under a
non-empty filter, classifies as `Hit` at some path prefix — the only
condition under which `should_filter` raises `filter_matched`. -/
def hitRecorded (cr : CrateM) (cfg : Renderer) : Prop :=
  ∃ ppfx item, (∃ id, cr.index id = some item)
    ∧ item.id ≠ cr.root ∧ cfg.filter ≠ []
    ∧ filter_match cfg ppfx item = FilterMatch.Hit

/-! ## Claim C7: skelebuild rebuild error handling
(src/skelebuild/rebuild.rs, src/skelebuild/mod.rs, src/main.rs) -/

/-- Embedding of `SkeleGroup` (src/skelebuild/mod.rs:745-751 /
rebuild.rs): either a run of sequential targets over one package root, an
injected text block, or a raw-source block. -/
inductive SkeleGroup where
  | Targets (pkg_root : String) (targets : List SkeleTarget)
  | Injection (content : String)
  | RawSource (raw : SkeleRawSource)
deriving DecidableEq, Repr

/-- The collaborators of `SkeleState::build_output`, as oracles: target
resolution (`resolve_target`, yielding the package roots of the resolved
targets, or an error message), crate loading (`read_crate`, the data itself
abstracted away), the raw files the in-group resolution loop collects for a
run of targets (that loop emits warnings only and cannot fail), the
absolute-path resolution for a raw file under a package root
(`is_absolute`/`join`), file reading (`fs::read_to_string`), and the render
pass (`Renderer::render_ext`, yielding the rendered text and the final
current file). -/
structure RebuildWorld where
  resolve_target : String → Except String (List String)
  read_crate : String → Except String Unit
  rawFilesOf : String → List SkeleTarget → List String
  absOf : String → String → String
  readToString : String → Except String Str
  render_ext : String → List SkeleTarget → Option String
    → Except String (Str × Option String)

/-- The group-merging of the grouping loop
(rebuild.rs:118-131): a target joins the trailing `Targets` group when it is
over the same package root, and otherwise opens a new group. -/
def pushTargetGroup (groups : List SkeleGroup) (pkg_root : String)
    (t : SkeleTarget) : List SkeleGroup :=
  match groups.getLast? with
  | some (SkeleGroup.Targets r ts) =>
    if r = pkg_root then groups.dropLast ++ [SkeleGroup.Targets r (ts ++ [t])]
    else groups ++ [SkeleGroup.Targets pkg_root [t]]
  | _ => groups ++ [SkeleGroup.Targets pkg_root [t]]

/-- The inner loop of the grouping pass over one target's resolved package
roots (rebuild.rs:96-132): an unloaded crate is loaded first, a failed load
is reported, raises `had_errors` and skips that root (`continue`), and a
loaded root merges the target into the groups.  The accumulator is
(loaded crate roots, groups, had_errors). -/
def addResolvedTarget (w : RebuildWorld) (t : SkeleTarget) :
    List String → List String × List SkeleGroup × Bool
    → List String × List SkeleGroup × Bool
  | [], acc => acc
  | rt :: rest, (crates, groups, he) =>
    if rt ∈ crates then
      addResolvedTarget w t rest (crates, pushTargetGroup groups rt t, he)
    else match w.read_crate rt with
      | .ok _ =>
        addResolvedTarget w t rest
          (rt :: crates, pushTargetGroup groups rt t, he)
      | .error _ => addResolvedTarget w t rest (crates, groups, true)

/-- The grouping loop of `build_output` (rebuild.rs:84-141): a target whose
resolution fails is reported, raises `had_errors` and is skipped
(`continue`); injections and raw-source entries become their own groups. -/
def groupEntries (w : RebuildWorld) :
    List SkeleEntry → List String × List SkeleGroup × Bool
    → List String × List SkeleGroup × Bool
  | [], acc => acc
  | SkeleEntry.target t :: rest, (crates, groups, he) =>
    match w.resolve_target t.path with
    | .error _ => groupEntries w rest (crates, groups, true)
    | .ok roots =>
      groupEntries w rest (addResolvedTarget w t roots (crates, groups, he))
  | SkeleEntry.injection c :: rest, (crates, groups, he) =>
    groupEntries w rest (crates, groups ++ [SkeleGroup.Injection c], he)
  | SkeleEntry.rawSource r :: rest, (crates, groups, he) =>
    groupEntries w rest (crates, groups ++ [SkeleGroup.RawSource r], he)

/-- Embedding of `ensure_markdown_block_sep` (rebuild.rs:14-26). -/
def ensure_markdown_block_sep (out : Str) : Str :=
  if out = [] then out
  else if ("\n\n").data.isSuffixOf out then out
  else if out.getLast? = some '\n' then out ++ ['\n']
  else out ++ '\n' :: '\n' :: []

/-- Embedding of `render_raw_source` (src/skelebuild/rebuild.rs:28-74): the
file read is propagated with `?`; an empty file renders an empty code block;
0-based line numbers, an inverted range, and a start beyond the end of the
file are `InvalidTarget` errors (carried as their messages); otherwise the
1-based inclusive slice is rendered in a fenced code block with the end
clamped to the end of the file. -/
def render_raw_source (w : RebuildWorld) (out : Str) (raw : SkeleRawSource) :
    Except String Str :=
  match w.readToString raw.file with
  | .error e => .error e
  | .ok content =>
    let lines := rustLines content
    let se := match raw.start_line, raw.end_line with
      | some s, some e => (s, e)
      | _, _ => (1, max lines.length 1)
    if lines.length = 0 then
      .ok (out ++ ("### Raw source: ").data ++ (raw.file).data
        ++ ("\n\n```rust\n```\n").data)
    else if se.1 = 0 ∨ se.2 = 0 then
      .error ("Raw source line numbers are 1-based (must be >= 1)")
    else if se.2 < se.1 then
      .error ("Raw source line range is invalid: start > end")
    else if lines.length < se.1 then
      .error ("Raw source start line exceeds file length")
    else
      .ok (out ++ ("### Raw source: ").data ++ (raw.file).data ++ (":").data
        ++ (toString se.1).data ++ (":").data
        ++ (toString (min se.2 lines.length)).data ++ ("\n\n").data
        ++ ("```rust\n").data
        ++ joinNLsep ((lines.drop (se.1 - 1)).take
            (min se.2 lines.length - (se.1 - 1)))
        ++ ("\n```\n").data)

/-- The raw-files loop of a `Targets` group (rebuild.rs:316-341): a file
that reads is labelled and appended, a failed read is reported and raises
`had_errors`, and the loop continues either way. -/
def rawFilesLoop (w : RebuildWorld) (root : String) :
    List String → Str × Bool → Str × Bool
  | [], acc => acc
  | f :: rest, (out, he) =>
    match w.readToString (w.absOf root f) with
    | .ok content =>
      rawFilesLoop w root rest
        (out ++ ("// ripdoc:source: ").data ++ (f).data ++ '\n' :: '\n' :: []
          ++ content ++ '\n' :: '\n' :: [], he)
    | .error _ => rawFilesLoop w root rest (out, true)

/-- The group render loop of `build_output` (rebuild.rs:146-370), with the
accumulator (final_output, last_file, had_errors): an injection is wrapped
in block separators; a raw-source block calls `render_raw_source` and
propagates its error with `?`; a targets group appends its raw files (caught
failures) and then the render pass, whose error is propagated with `?`. -/
def renderGroups (w : RebuildWorld) :
    List SkeleGroup → Str × Option String × Bool
    → Except String (Str × Option String × Bool)
  | [], acc => .ok acc
  | SkeleGroup.Injection c :: rest, (out, lf, he) =>
    renderGroups w rest
      (ensure_markdown_block_sep (ensure_markdown_block_sep out ++ (c).data),
       lf, he)
  | SkeleGroup.RawSource raw :: rest, (out, lf, he) =>
    match render_raw_source w (ensure_markdown_block_sep out) raw with
    | .error e => .error e
    | .ok out2 => renderGroups w rest (ensure_markdown_block_sep out2, lf, he)
  | SkeleGroup.Targets root targets :: rest, (out, lf, he) =>
    let rf := rawFilesLoop w root (w.rawFilesOf root targets)
      (ensure_markdown_block_sep out, he)
    match w.render_ext root targets lf with
    | .error e => .error e
    | .ok (rendered, ff) => renderGroups w rest (rf.1 ++ rendered, ff, rf.2)

/-- Embedding of `SkeleState::build_output` (rebuild.rs:78-376), returning
the output together with the `had_errors` flag (which in the source only
feeds the final `Completed with errors` warning line and is then
discarded). -/
def build_output (w : RebuildWorld) (st : SkeleState) :
    Except String (Str × Bool) :=
  let g := groupEntries w st.entries ([], [], false)
  match renderGroups w g.2.1 ([], none, g.2.2) with
  | .error e => .error e
  | .ok (out, _, he) => .ok (out, he)

/-- Embedding of `SkeleState::rebuild` (rebuild.rs:379-387): build the
output and write it to the output path (default `skeleton.md`), propagating
both failures with `?`. -/
def rebuild (w : RebuildWorld)
    (writeFile : String → Str → Except String Unit) (st : SkeleState) :
    Except String Unit :=
  match build_output w st with
  | .error e => .error e
  | .ok (out, _) => writeFile (st.output_path.getD ("skeleton.md")) out

/-- Embedding of the exit-code policy of `main` (src/main.rs): a process
exit status of 1 exactly when `run` returned an error. -/
def runExitCode (r : Except String Unit) : Nat :=
  match r with
  | .ok _ => 0
  | .error _ => 1

/-! ### Theorems -/

theorem charOfNatAux_toNat (n : Nat) (h : n.isValidChar) :
    (Char.ofNatAux n h).toNat = n := by
  simp [Char.ofNatAux, Char.toNat, UInt32.toNat]

theorem lowerChar_toNat_of_upper {c : Char} (h : 65 ≤ c.toNat ∧ c.toNat ≤ 90) :
    (lowerChar c).toNat = c.toNat + 32 := by
  rw [lowerChar, dif_pos h, charOfNatAux_toNat]

theorem lowerChar_eq_self {c : Char} (h : ¬(65 ≤ c.toNat ∧ c.toNat ≤ 90)) :
    lowerChar c = c := by
  rw [lowerChar, dif_neg h]

theorem lowerChar_idem (c : Char) : lowerChar (lowerChar c) = lowerChar c := by
  by_cases h : 65 ≤ c.toNat ∧ c.toNat ≤ 90
  · have h2 := lowerChar_toNat_of_upper h
    exact lowerChar_eq_self (by omega)
  · simp only [lowerChar_eq_self h]

theorem lowerStr_idem (s : Str) : lowerStr (lowerStr s) = lowerStr s := by
  unfold lowerStr
  rw [List.map_map]
  exact List.map_congr_left fun c _ => lowerChar_idem c

theorem keepChar_lowerChar (c : Char) : keepChar (lowerChar c) = keepChar c := by
  by_cases h : 65 ≤ c.toNat ∧ c.toNat ≤ 90
  · have ht := lowerChar_toNat_of_upper h
    have h1 : keepChar c = true := by
      simp only [keepChar, isAlnumChar, Bool.or_eq_true, decide_eq_true_eq,
        Bool.and_eq_true]
      refine Or.inl (Or.inl ?_)
      omega
    have h2 : keepChar (lowerChar c) = true := by
      simp only [keepChar, isAlnumChar, Bool.or_eq_true, decide_eq_true_eq,
        Bool.and_eq_true]
      refine Or.inl (Or.inl ?_)
      omega
    rw [h1, h2]
  · rw [lowerChar_eq_self h]

theorem strip_lowerStr (s : Str) :
    strip_symbols_preserving_pipes (lowerStr s)
      = lowerStr (strip_symbols_preserving_pipes s) := by
  induction s with
  | nil => rfl
  | cons c t ih =>
    simp only [strip_symbols_preserving_pipes, lowerStr, List.map_cons,
      List.filter_cons] at *
    rw [keepChar_lowerChar]
    cases hk : keepChar c <;> simp [hk, ih]

theorem consHead_ne_nil (c : Char) (l : List Str) : consHead c l ≠ [] := by
  cases l <;> simp [consHead]

theorem splitOnChar_ne_nil (sep : Char) (s : Str) : splitOnChar sep s ≠ [] := by
  cases s with
  | nil => simp [splitOnChar]
  | cons c t =>
    simp only [splitOnChar]
    split
    · simp
    · exact consHead_ne_nil _ _

theorem map_strip_consHead_keep {c : Char} (hk : keepChar c = true) (l : List Str) :
    (consHead c l).map strip_symbols_preserving_pipes
      = consHead c (l.map strip_symbols_preserving_pipes) := by
  cases l <;> simp [consHead, strip_symbols_preserving_pipes, List.filter_cons, hk]

theorem map_strip_consHead_drop {c : Char} (hk : keepChar c = false) {l : List Str}
    (hl : l ≠ []) :
    (consHead c l).map strip_symbols_preserving_pipes
      = l.map strip_symbols_preserving_pipes := by
  cases l with
  | nil => exact absurd rfl hl
  | cons h t => simp [consHead, strip_symbols_preserving_pipes, List.filter_cons, hk]

theorem splitOnPipe_strip (s : Str) :
    splitOnPipe (strip_symbols_preserving_pipes s)
      = (splitOnPipe s).map strip_symbols_preserving_pipes := by
  induction s with
  | nil => rfl
  | cons c t ih =>
    cases hk : keepChar c with
    | false =>
      have hc : ¬(c = '|') := by
        intro h
        rw [h] at hk
        exact absurd hk (by decide)
      have h1 : strip_symbols_preserving_pipes (c :: t)
          = strip_symbols_preserving_pipes t := by
        simp [strip_symbols_preserving_pipes, List.filter_cons, hk]
      have h2 : splitOnPipe (c :: t) = consHead c (splitOnPipe t) := by
        simp [splitOnPipe, splitOnChar, hc]
      have hnn : splitOnPipe t ≠ [] := splitOnChar_ne_nil '|' t
      rw [h1, h2, ih, map_strip_consHead_drop hk hnn]
    | true =>
      have h1 : strip_symbols_preserving_pipes (c :: t)
          = c :: strip_symbols_preserving_pipes t := by
        simp [strip_symbols_preserving_pipes, List.filter_cons, hk]
      by_cases hc : c = '|'
      · subst hc
        have h4 : ∀ x : Str, splitOnPipe ('|' :: x) = [] :: splitOnPipe x := by
          intro x
          simp [splitOnPipe, splitOnChar]
        rw [h1, h4, h4, List.map_cons, ih]
        rfl
      · have h2 : splitOnPipe (c :: t) = consHead c (splitOnPipe t) := by
          simp [splitOnPipe, splitOnChar, hc]
        have h3 : splitOnPipe (c :: strip_symbols_preserving_pipes t)
            = consHead c (splitOnPipe (strip_symbols_preserving_pipes t)) := by
          simp [splitOnPipe, splitOnChar, hc]
        rw [h1, h3, h2, ih, map_strip_consHead_keep hk]

theorem parse_escape (q : Str) :
    parseAlternation (escape_regex_preserving_pipes q) = some (splitOnPipe q) := by
  induction q with
  | nil => rfl
  | cons c t ih =>
    by_cases hc : c = '|'
    · subst hc
      have he : escape_regex_preserving_pipes ('|' :: t)
          = '|' :: escape_regex_preserving_pipes t := by
        simp [escape_regex_preserving_pipes]
      rw [he, parseAlternation.eq_def]
      simp [ih, splitOnPipe, splitOnChar]
    · cases hm : isRegexMeta c with
      | true =>
        have he : escape_regex_preserving_pipes (c :: t)
            = '\\' :: c :: escape_regex_preserving_pipes t := by
          simp [escape_regex_preserving_pipes, hc, hm]
        rw [he, parseAlternation.eq_def]
        simp only [if_pos rfl, ih, Option.map_some]
        simp [splitOnPipe, splitOnChar, hc]
      | false =>
        have hb : ¬(c = '\\') := by
          intro h
          rw [h] at hm
          exact absurd hm (by decide)
        have he : escape_regex_preserving_pipes (c :: t)
            = c :: escape_regex_preserving_pipes t := by
          simp [escape_regex_preserving_pipes, hc, hm]
        rw [he, parseAlternation.eq_def]
        simp only [hb, if_false, hc, hm, ih, Option.map_some, if_neg]
        simp [splitOnPipe, splitOnChar, hc]

theorem anyOrDistrib {α : Type} (l : List α) (p q : α → Bool) :
    (l.any fun x => p x || q x) = (l.any p || l.any q) := by
  induction l with
  | nil => rfl
  | cons a t ih =>
    simp only [List.any_cons, ih]
    cases p a <;> cases q a <;> cases t.any p <;> cases t.any q <;> rfl

theorem anyConstAnd {α : Type} (l : List α) (c : Bool) (p : α → Bool) :
    (l.any fun x => c && p x) = (c && l.any p) := by
  cases c <;> simp

theorem fold_strip_comm (cs : Bool) (x : Str) :
    foldCase cs (strip_symbols_preserving_pipes x)
      = strip_symbols_preserving_pipes (foldCase cs x) := by
  cases cs <;> simp [foldCase, strip_lowerStr]

theorem any_funext {α : Type} (l : List α) (p q : α → Bool) (h : ∀ x, p x = q x) :
    l.any p = l.any q := by
  have : p = q := funext h
  rw [this]

theorem regexLitsMatch_strip (q : Str) (cs : Bool) (t : Str) :
    regexLitsMatch ((splitOnPipe q).map strip_symbols_preserving_pipes) cs
      (strip_symbols_preserving_pipes t)
    = (splitOnPipe q).any fun alt =>
        isInfixB (strip_symbols_preserving_pipes (foldCase cs alt))
          (strip_symbols_preserving_pipes (foldCase cs t)) := by
  unfold regexLitsMatch
  rw [List.any_map]
  apply any_funext
  intro alt
  simp [Function.comp, fold_strip_comm]

theorem filter_simple_spec (entries : List V2EntryM) (q : Str) (dom : SearchDomainM)
    (cs : Bool) (hq : q.contains '|' = false) :
    filter_simple entries q dom cs = entries.filter (searchSpecMatch q dom cs) := by
  unfold filter_simple searchSpecMatch
  apply List.filter_congr
  intro e _
  simp only [hq, Bool.false_eq_true, if_false, List.any_cons, List.any_nil,
    Bool.or_false, altDomainMatch]

theorem filter_or_spec (entries : List V2EntryM) (q : Str) (dom : SearchDomainM)
    (cs : Bool) (hq : q.contains '|' = true) :
    filter_or entries q dom cs = entries.filter (searchSpecMatch q dom cs) := by
  unfold filter_or
  rw [parse_escape]
  simp only []
  apply List.filter_congr
  intro e _
  simp only [searchSpecMatch, hq, if_true, if_pos]
  have expand : ∀ alt, altDomainMatch dom cs alt e
      = ((dom.names && isInfixB (foldCase cs alt) (foldCase cs e.nameOf))
        || ((dom.paths && isInfixB (foldCase cs alt) (foldCase cs e.path))
        || ((dom.docs && (match e.docs with
            | some d => isInfixB (strip_symbols_preserving_pipes (foldCase cs alt))
                (strip_symbols_preserving_pipes (foldCase cs d))
            | none => false))
        || (dom.signatures && (match e.signature with
            | some sg => isInfixB (strip_symbols_preserving_pipes (foldCase cs alt))
                (strip_symbols_preserving_pipes (foldCase cs sg))
            | none => false))))) := by
    intro alt
    simp [altDomainMatch, Bool.or_assoc]
  rw [any_funext _ _ _ expand]
  rw [anyOrDistrib, anyOrDistrib, anyOrDistrib]
  rw [anyConstAnd, anyConstAnd, anyConstAnd, anyConstAnd]
  by_cases hds : (dom.docs || dom.signatures) = true
  · rw [parse_escape, splitOnPipe_strip]
    simp only [hds, if_true, if_pos]
    have hdocs : (match e.docs with
        | some d => regexLitsMatch
            ((splitOnPipe q).map strip_symbols_preserving_pipes) cs
            (strip_symbols_preserving_pipes d)
        | none => false)
        = (splitOnPipe q).any fun alt => (match e.docs with
            | some d => isInfixB (strip_symbols_preserving_pipes (foldCase cs alt))
                (strip_symbols_preserving_pipes (foldCase cs d))
            | none => false) := by
      cases e.docs with
      | none => simp
      | some d => exact regexLitsMatch_strip q cs d
    have hsig : (match e.signature with
        | some sg => regexLitsMatch
            ((splitOnPipe q).map strip_symbols_preserving_pipes) cs
            (strip_symbols_preserving_pipes sg)
        | none => false)
        = (splitOnPipe q).any fun alt => (match e.signature with
            | some sg => isInfixB (strip_symbols_preserving_pipes (foldCase cs alt))
                (strip_symbols_preserving_pipes (foldCase cs sg))
            | none => false) := by
      cases e.signature with
      | none => simp
      | some sg => exact regexLitsMatch_strip q cs sg
    rw [hdocs, hsig]
    simp [regexLitsMatch, Bool.or_assoc]
  · have hd : dom.docs = false := by
      cases hdd : dom.docs
      · rfl
      · rw [hdd] at hds
        simp at hds
    have hs : dom.signatures = false := by
      cases hss : dom.signatures
      · rfl
      · rw [hss] at hds
        simp at hds
    simp only [hds, if_false, Bool.false_eq_true, hd, hs, Bool.false_and,
      Bool.or_false, regexLitsMatch]

theorem lowerChar_eq_pipe_iff (c : Char) : lowerChar c = '|' ↔ c = '|' := by
  constructor
  · intro h
    by_cases hr : 65 ≤ c.toNat ∧ c.toNat ≤ 90
    · exfalso
      have h1 := lowerChar_toNat_of_upper hr
      rw [h] at h1
      have h2 : ('|' : Char).toNat = 124 := by decide
      omega
    · rwa [lowerChar_eq_self hr] at h
  · intro h
    subst h
    decide

theorem contains_pipe_lower (s : Str) :
    (lowerStr s).contains '|' = s.contains '|' := by
  induction s with
  | nil => rfl
  | cons c t ih =>
    have hhead : ('|' == lowerChar c) = ('|' == c) := by
      by_cases hc : c = '|'
      · subst hc
        decide
      · have h2 : ¬(lowerChar c = '|') := fun h => hc ((lowerChar_eq_pipe_iff c).mp h)
        have h3 : ¬(('|' : Char) = lowerChar c) := fun h => h2 h.symm
        have h4 : ¬(('|' : Char) = c) := fun h => hc h.symm
        simp [h3, h4]
    show (lowerChar c :: lowerStr t).contains '|' = (c :: t).contains '|'
    rw [List.contains_cons, List.contains_cons, hhead, ih]

theorem map_lower_consHead (c : Char) (l : List Str) :
    (consHead c l).map lowerStr = consHead (lowerChar c) (l.map lowerStr) := by
  cases l <;> simp [consHead, lowerStr]

theorem splitOnPipe_lower (s : Str) :
    splitOnPipe (lowerStr s) = (splitOnPipe s).map lowerStr := by
  induction s with
  | nil => rfl
  | cons c t ih =>
    have h0 : lowerStr (c :: t) = lowerChar c :: lowerStr t := rfl
    by_cases hc : c = '|'
    · subst hc
      have hl : lowerChar '|' = '|' := by decide
      rw [h0, hl]
      have h4 : ∀ x : Str, splitOnPipe ('|' :: x) = [] :: splitOnPipe x := by
        intro x
        simp [splitOnPipe, splitOnChar]
      rw [h4, h4, ih, List.map_cons]
      rfl
    · have hlc : ¬(lowerChar c = '|') := fun h => hc ((lowerChar_eq_pipe_iff c).mp h)
      have h2 : splitOnPipe (c :: t) = consHead c (splitOnPipe t) := by
        simp [splitOnPipe, splitOnChar, hc]
      have h3 : splitOnPipe (lowerChar c :: lowerStr t)
          = consHead (lowerChar c) (splitOnPipe (lowerStr t)) := by
        simp [splitOnPipe, splitOnChar, hlc]
      rw [h0, h3, ih, h2, map_lower_consHead]

theorem altDomainMatch_lower (dom : SearchDomainM) (alt : Str) (e : V2EntryM) :
    altDomainMatch dom false (lowerStr alt) e = altDomainMatch dom false alt e := by
  simp [altDomainMatch, foldCase, lowerStr_idem]

theorem searchSpecMatch_lower_query (q : Str) (dom : SearchDomainM) (e : V2EntryM) :
    searchSpecMatch q dom false e = searchSpecMatch (lowerStr q) dom false e := by
  unfold searchSpecMatch
  rw [contains_pipe_lower]
  by_cases hq : q.contains '|' = true
  · simp only [hq, if_true, if_pos]
    rw [splitOnPipe_lower, List.any_map]
    apply any_funext
    intro alt
    simp [Function.comp, altDomainMatch_lower]
  · simp only [Bool.not_eq_true] at hq
    simp only [hq, Bool.false_eq_true, if_false, List.any_cons, List.any_nil,
      Bool.or_false]
    exact (altDomainMatch_lower dom q e).symm

theorem filter_entries_eq_spec (entries : List V2EntryM) (opts : SearchOptionsM)
    (h : trimStr opts.query ≠ []) :
    filter_entries entries opts
      = entries.filter (searchSpecMatch (trimStr opts.query)
          (ensure_domains opts.domains) opts.case_sensitive) := by
  unfold filter_entries
  rw [if_neg h]
  by_cases hq : (trimStr opts.query).contains '|' = true
  · rw [if_pos hq]
    exact filter_or_spec entries _ _ _ hq
  · simp only [Bool.not_eq_true] at hq
    rw [if_neg (by rw [hq]; exact Bool.false_ne_true)]
    exact filter_simple_spec entries _ _ _ hq

/-- C1 (amended): after trimming surrounding whitespace, a non-empty query
containing `|` is matched as an OR of its literal `|`-separated alternatives
(each alternative with its regex metacharacters escaped so that only `|` acts
as an operator, by `parse_escape`), a non-empty query without `|` is matched
by plain substring containment of the trimmed query, in both modes an entry
matches case-insensitively exactly when `case_sensitive` is false (matching is
invariant under lowercasing the query when `case_sensitive` is false, and the
final conjunct separates the two modes on a concrete casing pair), and a query
that trims to the empty string returns no entries. -/
theorem claim_C1 :
    (∀ (entries : List V2EntryM) (opts : SearchOptionsM),
        trimStr opts.query ≠ [] →
        filter_entries entries opts
          = entries.filter (searchSpecMatch (trimStr opts.query)
              (ensure_domains opts.domains) opts.case_sensitive))
    ∧ (∀ (q : Str) (dom : SearchDomainM) (e : V2EntryM),
        searchSpecMatch q dom false e = searchSpecMatch (lowerStr q) dom false e)
    ∧ (∀ (entries : List V2EntryM) (opts : SearchOptionsM),
        trimStr opts.query = [] → filter_entries entries opts = [])
    ∧ (filter_entries [⟨("tiny::Widget").data, none, none⟩]
          ⟨("widget").data, ⟨true, true, false, true⟩, true⟩ = []
       ∧ filter_entries [⟨("tiny::Widget").data, none, none⟩]
          ⟨("widget").data, ⟨true, true, false, true⟩, false⟩
          = [⟨("tiny::Widget").data, none, none⟩]) := by
  refine ⟨filter_entries_eq_spec, searchSpecMatch_lower_query, ?_, by decide, by decide⟩
  intro entries opts h
  unfold filter_entries
  rw [if_pos h]

/-- Witness for C1: the amended theorem applied at a concrete OR query. -/
theorem claim_C1_witness :
    trimStr (("Widget|helper").data) ≠ [] ∧
    filter_entries [⟨("tiny::Widget").data, none, none⟩]
        ⟨("Widget|helper").data, ⟨true, true, false, true⟩, false⟩
      = List.filter (searchSpecMatch (trimStr (("Widget|helper").data))
          (ensure_domains ⟨true, true, false, true⟩) false)
        [⟨("tiny::Widget").data, none, none⟩] :=
  ⟨by decide, claim_C1.1 _ _ (by decide)⟩

/-- C1 counterexample: the claim quantifies over every `SearchOptions`, but for
the empty query (which contains no `|`) `filter_entries` returns no entries,
while matching by plain substring containment would return every entry (the
empty string is a substring of everything). -/
theorem claim_C1_counterexample :
    filter_entries [⟨("foo").data, none, none⟩]
        ⟨[], ⟨true, true, false, true⟩, false⟩ = []
    ∧ List.filter (searchSpecMatch ([]) (ensure_domains ⟨true, true, false, true⟩) false)
        [⟨("foo").data, none, none⟩] = [⟨("foo").data, none, none⟩] := by
  exact ⟨by decide, by decide⟩

theorem gap_not_blank {l : Str} (hg : isGapLine l = true) : isBlankLine l = false := by
  cases hb : isBlankLine l
  · rfl
  · exfalso
    simp only [isGapLine, decide_eq_true_eq] at hg
    simp only [isBlankLine, List.all_eq_true] at hb
    have hnil : trimStartStr l = [] := by
      simp only [trimStartStr, List.dropWhile_eq_nil_iff]
      exact hb
    rw [hnil] at hg
    exact absurd hg.symm (by decide)

theorem dedupLines_inv (ls : List Str) : ∀ (ig eb : Bool),
    List.Chain' (fun a b => ¬(isGapLine a = true ∧ isGapLine b = true))
      ((dedupLines ls ig eb).filter (fun l => !(isBlankLine l)))
    ∧ (ig = true → ∀ h,
        ((dedupLines ls ig eb).filter (fun l => !(isBlankLine l))).head? = some h →
        isGapLine h = false) := by
  induction ls with
  | nil =>
    intro ig eb
    refine ⟨by simp [dedupLines], ?_⟩
    intro _ h hh
    simp [dedupLines] at hh
  | cons line rest ih =>
    intro ig eb
    by_cases hg : isGapLine line = true
    · cases ig with
      | true =>
        simp only [dedupLines, hg, if_true, if_pos]
        exact ⟨(ih true eb).1, fun _ h hh => (ih true eb).2 rfl h hh⟩
      | false =>
        simp only [dedupLines, hg, if_true, if_pos, Bool.false_eq_true, if_false]
        have hnb := gap_not_blank hg
        rw [List.filter_cons, hnb]
        simp only [Bool.not_false, if_true, if_pos]
        constructor
        · rw [List.chain'_cons']
          refine ⟨?_, (ih true false).1⟩
          intro h hh
          have := (ih true false).2 rfl h hh
          intro hcon
          rw [this] at hcon
          exact absurd hcon.2 (by simp)
        · intro hcontra
          exact absurd hcontra (by simp)
    · by_cases hb : isBlankLine line = true
      · have hgf : isGapLine line = false := by
          cases hgg : isGapLine line
          · rfl
          · exact absurd hgg hg
        cases ig with
        | true =>
          cases eb with
          | true =>
            simp only [dedupLines, hgf, Bool.false_eq_true, if_false, hb, if_true,
              if_pos]
            exact ⟨(ih true true).1, fun _ h hh => (ih true true).2 rfl h hh⟩
          | false =>
            simp only [dedupLines, hgf, Bool.false_eq_true, if_false, hb, if_true,
              if_pos]
            rw [List.filter_cons, hb]
            simp only [Bool.not_true, Bool.false_eq_true, if_false]
            exact ⟨(ih true true).1, fun _ h hh => (ih true true).2 rfl h hh⟩
        | false =>
          simp only [dedupLines, hgf, Bool.false_eq_true, if_false, hb, if_true,
            if_pos]
          rw [List.filter_cons, hb]
          simp only [Bool.not_true, Bool.false_eq_true, if_false]
          refine ⟨(ih false eb).1, ?_⟩
          intro hcontra
          exact absurd hcontra (by simp)
      · have hgf : isGapLine line = false := by
          cases hgg : isGapLine line
          · rfl
          · exact absurd hgg hg
        have hbf : isBlankLine line = false := by
          cases hbb : isBlankLine line
          · rfl
          · exact absurd hbb hb
        simp only [dedupLines, hgf, Bool.false_eq_true, if_false, hbf]
        rw [List.filter_cons, hbf]
        simp only [Bool.not_false, if_true, if_pos]
        constructor
        · rw [List.chain'_cons']
          refine ⟨?_, (ih false eb).1⟩
          intro h _
          intro hcon
          rw [hgf] at hcon
          exact absurd hcon.1 (by simp)
        · intro _ h hh
          rw [List.head?_cons] at hh
          injection hh with hh2
          rw [← hh2]
          exact hgf

theorem splitOnChar_append_no_sep (sep : Char) (a rest : Str) (ha : sep ∉ a) :
    splitOnChar sep (a ++ sep :: rest) = a :: splitOnChar sep rest := by
  induction a with
  | nil => simp [splitOnChar]
  | cons c a' iha =>
    have hc : ¬(c = sep) := fun h => ha (h ▸ List.mem_cons_self c a')
    have ha' : sep ∉ a' := fun h => ha (List.mem_cons_of_mem c h)
    simp only [List.cons_append, splitOnChar, hc, if_false, List.append_eq]
    rw [iha ha']
    rfl

theorem joinLinesNL_split (ls : List Str) (h : ∀ l ∈ ls, '\n' ∉ l) :
    splitOnChar '\n' (joinLinesNL ls) = ls ++ [[]] := by
  induction ls with
  | nil => rfl
  | cons a t iht =>
    have ha : '\n' ∉ a := h a (List.mem_cons_self a t)
    have ht : ∀ l ∈ t, '\n' ∉ l := fun l hl => h l (List.mem_cons_of_mem a hl)
    show splitOnChar '\n' (a ++ '\n' :: joinLinesNL t) = (a :: t) ++ [[]]
    rw [splitOnChar_append_no_sep _ _ _ ha, iht ht]
    rfl

theorem joinLinesNL_ne_nil (a : Str) (t : List Str) : joinLinesNL (a :: t) ≠ [] := by
  show a ++ '\n' :: joinLinesNL t ≠ []
  simp

theorem pureLines_join (ls : List Str) (h : ∀ l ∈ ls, '\n' ∉ l) :
    pureLines (joinLinesNL ls) = ls := by
  cases ls with
  | nil => rfl
  | cons a t =>
    unfold pureLines
    rw [if_neg (joinLinesNL_ne_nil a t), joinLinesNL_split _ h]
    have h1 : ((a :: t) ++ [([] : Str)]).getLast? = some [] := by
      rw [List.getLast?_concat]
    rw [if_pos h1, List.dropLast_concat]

theorem dedupLines_mem (ls : List Str) :
    ∀ (ig eb : Bool) (x : Str), x ∈ dedupLines ls ig eb → x ∈ ls := by
  induction ls with
  | nil =>
    intro ig eb x hx
    simp [dedupLines] at hx
  | cons line rest ih =>
    intro ig eb x hx
    unfold dedupLines at hx
    split at hx
    · split at hx
      · exact List.mem_cons_of_mem line (ih _ _ x hx)
      · rcases List.mem_cons.mp hx with h | h
        · exact h ▸ List.mem_cons_self line rest
        · exact List.mem_cons_of_mem line (ih _ _ x h)
    · split at hx
      · split at hx
        · split at hx
          · exact List.mem_cons_of_mem line (ih _ _ x hx)
          · rcases List.mem_cons.mp hx with h | h
            · exact h ▸ List.mem_cons_self line rest
            · exact List.mem_cons_of_mem line (ih _ _ x h)
        · rcases List.mem_cons.mp hx with h | h
          · exact h ▸ List.mem_cons_self line rest
          · exact List.mem_cons_of_mem line (ih _ _ x h)
      · rcases List.mem_cons.mp hx with h | h
        · exact h ▸ List.mem_cons_self line rest
        · exact List.mem_cons_of_mem line (ih _ _ x h)

theorem splitOnChar_pieces_no_sep (sep : Char) (s : Str) :
    ∀ p ∈ splitOnChar sep s, sep ∉ p := by
  induction s with
  | nil =>
    intro p hp
    simp [splitOnChar] at hp
    simp [hp]
  | cons c rest ih =>
    intro p hp
    unfold splitOnChar at hp
    split at hp
    · rcases List.mem_cons.mp hp with h | h
      · simp [h]
      · exact ih p h
    · rename_i hc
      cases hsp : splitOnChar sep rest with
      | nil => exact absurd hsp (splitOnChar_ne_nil sep rest)
      | cons hh tt =>
        rw [hsp, consHead] at hp
        rcases List.mem_cons.mp hp with h | h
        · subst h
          intro hmem
          rcases List.mem_cons.mp hmem with h2 | h2
          · exact hc h2.symm
          · exact ih hh (hsp ▸ List.mem_cons_self hh tt) h2
        · exact ih p (hsp ▸ List.mem_cons_of_mem hh h)

theorem rustLines_no_nl (s : Str) : ∀ l ∈ rustLines s, '\n' ∉ l := by
  intro l hl
  unfold rustLines at hl
  split at hl
  · simp at hl
  · rcases List.mem_map.mp hl with ⟨p, hp, hpl⟩
    have hpmem : p ∈ splitOnChar '\n' s := by
      revert hp
      split
      · intro hp
        exact (List.dropLast_sublist _).mem hp
      · intro hp
        exact hp
    have hnop : '\n' ∉ p := splitOnChar_pieces_no_sep '\n' s p hpmem
    subst hpl
    unfold stripCR
    split
    · exact fun hmem => hnop ((List.dropLast_sublist p).mem hmem)
    · exact hnop

/-- C4: the gap post-processor guarantees gap idempotence.  First conjunct:
for every input string, the output of `dedup_gap_markers` has no two adjacent
non-blank lines that both consist of the gap marker.  Second conjunct: every
rendered output (`render_rust`, which both `Rust` and `Markdown` formats go
through) is passed through this collapse, so the same property holds of it.
Third conjunct: the collapse only ever keeps input lines (each run is reduced
to its first marker line, never rewritten). -/
theorem claim_C4 :
    (∀ s : Str, noAdjacentGaps (pureLines (dedup_gap_markers s)))
    ∧ (∀ (formatter : Str → Option Str) (raw : Str),
        noAdjacentGaps (pureLines (render_rust formatter raw)))
    ∧ (∀ (ls : List Str) (ig eb : Bool) (x : Str), x ∈ dedupLines ls ig eb → x ∈ ls) := by
  have main : ∀ s : Str, noAdjacentGaps (pureLines (dedup_gap_markers s)) := by
    intro s
    unfold dedup_gap_markers
    have hnl : ∀ l ∈ dedupLines (rustLines s) false false, '\n' ∉ l := by
      intro l hl
      exact rustLines_no_nl s l (dedupLines_mem (rustLines s) false false l hl)
    rw [pureLines_join _ hnl]
    exact (dedupLines_inv (rustLines s) false false).1
  refine ⟨main, ?_, dedupLines_mem⟩
  intro formatter raw
  unfold render_rust
  cases formatter raw with
  | none => exact main raw
  | some formatted => exact main formatted

/-- Witness for C4: the third conjunct applied at a concrete line list. -/
theorem claim_C4_witness :
    (("// ...").data ∈ dedupLines [("x").data, ("// ...").data] false false)
    ∧ ("// ...").data ∈ [("x").data, ("// ...").data] :=
  ⟨by decide, claim_C4.2.2 [("x").data, ("// ...").data] false false
    (("// ...").data) (by decide)⟩

theorem rangeMap_getD_slice (l : List Str) (s k : Nat) (h : s + k ≤ l.length) :
    (List.range k).map (fun i => l.getD (s + i) []) = (l.drop s).take k := by
  apply List.ext_getElem
  · simp
    omega
  · intro i h1 h2
    have hik : i < k := by
      simp at h1
      exact h1
    have hsi : s + i < l.length := by omega
    simp only [List.getElem_map, List.getElem_range, List.getElem_take,
      List.getElem_drop]
    rw [List.getD_eq_getElem l [] hsi]

theorem claim_C5_helper_prefix (fs : FsModel) (p : RPath) :
    ("// ripdoc:error: ").data <+: ripdocErrorLine fs p := by
  refine ⟨("failed to read source file ").data ++ p.display
    ++ (": ").data ++ fs.readErrMsg p, ?_⟩
  unfold ripdocErrorLine
  rw [← List.append_assoc, ← List.append_assoc, ← List.append_assoc]
  rw [show ("// ripdoc:error: ").data ++ ("failed to read source file ").data
    = ("// ripdoc:error: failed to read source file ").data from by decide]

/-- C5 (amended): `extract_source` never returns an error; a failed read
yields the `// ripdoc:error:` annotation (a single line when the error text
and path contain no newline); `begin = 0` or `begin` beyond the end of file
yields the empty string; otherwise the result is the 1-based inclusive slice
`[begin .. end]` with `end` clamped to the end of file, after converting
leading inner doc markers and sanitizing truncated attribute-only fragments
(the correction: the claim said the lines are returned exactly). -/
theorem claim_C5 : ∀ (fs : FsModel) (span : SpanM) (source_root : Option RPath),
    (∃ s, extract_source fs span source_root = .ok s)
    ∧ (fs.readToString (resolveSpanPath fs span source_root) = none →
        extract_source fs span source_root
          = .ok (ripdocErrorLine fs (resolveSpanPath fs span source_root))
        ∧ ("// ripdoc:error: ").data
            <+: ripdocErrorLine fs (resolveSpanPath fs span source_root))
    ∧ (∀ p : RPath, '\n' ∉ fs.readErrMsg p → '\n' ∉ p.display →
        '\n' ∉ ripdocErrorLine fs p)
    ∧ (∀ content, fs.readToString (resolveSpanPath fs span source_root) = some content →
        (span.beginLine = 0 ∨ span.beginLine > (rustLines content).length) →
        extract_source fs span source_root = .ok [])
    ∧ (∀ content, fs.readToString (resolveSpanPath fs span source_root) = some content →
        1 ≤ span.beginLine → span.beginLine ≤ (rustLines content).length →
        extract_source fs span source_root
          = .ok (sanitize_extracted_snippet (joinNLsep
              ((((rustLines content).drop (span.beginLine - 1)).take
                  (min span.endLine (rustLines content).length
                    - (span.beginLine - 1))).map convertInnerDoc)))) := by
  intro fs span source_root
  have hBnone : fs.readToString (resolveSpanPath fs span source_root) = none →
      extract_source fs span source_root
        = .ok (ripdocErrorLine fs (resolveSpanPath fs span source_root)) := by
    intro hnone
    simp only [extract_source]
    rw [hnone]
  have hCempty : ∀ content,
      fs.readToString (resolveSpanPath fs span source_root) = some content →
      (span.beginLine = 0 ∨ span.beginLine > (rustLines content).length) →
      extract_source fs span source_root = .ok [] := by
    intro content hsome hb
    simp only [extract_source]
    rw [hsome]
    simp only []
    rw [if_pos hb]
  have hDslice : ∀ content,
      fs.readToString (resolveSpanPath fs span source_root) = some content →
      1 ≤ span.beginLine → span.beginLine ≤ (rustLines content).length →
      extract_source fs span source_root
        = .ok (sanitize_extracted_snippet (joinNLsep
            ((((rustLines content).drop (span.beginLine - 1)).take
                (min span.endLine (rustLines content).length
                  - (span.beginLine - 1))).map convertInnerDoc))) := by
    intro content hsome hb1 hb2
    simp only [extract_source]
    rw [hsome]
    simp only []
    rw [if_neg (show ¬(span.beginLine = 0
      ∨ span.beginLine > (rustLines content).length) by omega)]
    have hslice := rangeMap_getD_slice (rustLines content) (span.beginLine - 1)
      (min span.endLine (rustLines content).length - (span.beginLine - 1))
      (by omega)
    have hmm : (List.range (min span.endLine (rustLines content).length
          - (span.beginLine - 1))).map
        (fun i => convertInnerDoc ((rustLines content).getD (span.beginLine - 1 + i) []))
        = (((rustLines content).drop (span.beginLine - 1)).take
            (min span.endLine (rustLines content).length
              - (span.beginLine - 1))).map convertInnerDoc := by
      rw [← hslice, List.map_map]
      rfl
    rw [hmm]
  refine ⟨?_, fun hnone => ⟨hBnone hnone, claim_C5_helper_prefix fs _⟩, ?_,
    hCempty, hDslice⟩
  · cases hr : fs.readToString (resolveSpanPath fs span source_root) with
    | none => exact ⟨_, hBnone hr⟩
    | some content =>
      by_cases hb : span.beginLine = 0 ∨ span.beginLine > (rustLines content).length
      · exact ⟨[], hCempty content hr hb⟩
      · exact ⟨_, hDslice content hr (by omega) (by omega)⟩
  · intro p hmsg hdisp
    unfold ripdocErrorLine
    intro hmem
    rcases List.mem_append.mp hmem with h | h
    · rcases List.mem_append.mp h with h2 | h2
      · rcases List.mem_append.mp h2 with h3 | h3
        · exact absurd h3 (by decide)
        · exact hdisp h3
      · exact absurd h2 (by decide)
    · exact hmsg h

/-- Witness for C5: the slice conjunct applied to a concrete three-line file,
span lines 2 to 5 (clamped to 3). -/
theorem claim_C5_witness :
    (FsModel.mk (fun p => decide (p = ⟨true, ["src", "lib.rs"]⟩))
        (fun p => if p = ⟨true, ["src", "lib.rs"]⟩
          then some (("line1\nline2\nline3").data) else none)
        (fun _ => [])).readToString
      (resolveSpanPath
        (FsModel.mk (fun p => decide (p = ⟨true, ["src", "lib.rs"]⟩))
          (fun p => if p = ⟨true, ["src", "lib.rs"]⟩
            then some (("line1\nline2\nline3").data) else none)
          (fun _ => []))
        ⟨⟨true, ["src", "lib.rs"]⟩, 2, 5⟩ none) = some (("line1\nline2\nline3").data)
    ∧ extract_source
        (FsModel.mk (fun p => decide (p = ⟨true, ["src", "lib.rs"]⟩))
          (fun p => if p = ⟨true, ["src", "lib.rs"]⟩
            then some (("line1\nline2\nline3").data) else none)
          (fun _ => []))
        ⟨⟨true, ["src", "lib.rs"]⟩, 2, 5⟩ none
      = .ok (sanitize_extracted_snippet (joinNLsep
          ((((rustLines (("line1\nline2\nline3").data)).drop 1).take 2).map
            convertInnerDoc))) :=
  ⟨by decide,
    (claim_C5
      (FsModel.mk (fun p => decide (p = ⟨true, ["src", "lib.rs"]⟩))
        (fun p => if p = ⟨true, ["src", "lib.rs"]⟩
          then some (("line1\nline2\nline3").data) else none)
        (fun _ => []))
      ⟨⟨true, ["src", "lib.rs"]⟩, 2, 5⟩ none).2.2.2.2
      (("line1\nline2\nline3").data) (by decide) (by decide) (by decide)⟩

/-- C5 counterexample: the claim says the extraction "returns exactly the
1-based inclusive lines [begin .. end]", but a line starting with the inner
doc marker `//!` is rewritten to `///` in the result. -/
theorem claim_C5_counterexample :
    extract_source
        (FsModel.mk (fun p => decide (p = ⟨true, ["src", "lib.rs"]⟩))
          (fun p => if p = ⟨true, ["src", "lib.rs"]⟩
            then some (("//! x").data) else none)
          (fun _ => []))
        ⟨⟨true, ["src", "lib.rs"]⟩, 1, 1⟩ none = .ok (("/// x").data)
    ∧ (("/// x").data ≠ ("//! x").data) := by
  exact ⟨by rfl, by decide⟩

/-- C10: `SkeleState::load` never fails.  When the state file is absent, when
the read fails (so `unwrap_or_default` yields the empty string, which does not
parse), or when the contents do not parse, the default state — no output path,
empty entry list — is returned. -/
theorem claim_C10 : ∀ (readFile : Option String)
    (parse : String → Option SkeleState),
    (SkeleState.load false readFile parse = skeleStateDefault)
    ∧ (parse "" = none → SkeleState.load true none parse = skeleStateDefault)
    ∧ (∀ c, readFile = some c → parse c = none →
        SkeleState.load true readFile parse = skeleStateDefault)
    ∧ skeleStateDefault.output_path = none ∧ skeleStateDefault.entries = [] := by
  intro readFile parse
  refine ⟨rfl, ?_, ?_, rfl, rfl⟩
  · intro hparse
    simp [SkeleState.load, hparse]
  · intro c hread hparse
    simp [SkeleState.load, hread, hparse]

/-- Witness for C10: a parser that rejects everything yields the default. -/
theorem claim_C10_witness :
    ((fun _ : String => (none : Option SkeleState)) "" = none)
    ∧ SkeleState.load true none (fun _ => none) = skeleStateDefault :=
  ⟨rfl, (claim_C10 none (fun _ => none)).2.1 rfl⟩

/-- C8 counterexample: saving performs exactly a `create_dir_all` of the
parent followed by a direct `fs::write` of the state-file path; no write to a
sibling temporary path followed by a rename over the state file occurs. -/
theorem claim_C8_counterexample :
    SkeleState.save (fun _ => .ok ("\x7b\x7d")) ["home", ".local", "state"]
        skeleStateDefault
      = .ok [FsOp.createDirAll ["home", ".local", "state", "ripdoc"],
             FsOp.writeFile ["home", ".local", "state", "ripdoc", "skelebuild.json"]
               ("\x7b\x7d")]
    ∧ ¬(∃ ops, SkeleState.save (fun _ => .ok ("\x7b\x7d")) ["home", ".local", "state"]
          skeleStateDefault = .ok ops
        ∧ ∃ tmp content, (FsOp.writeFile tmp content) ∈ ops
            ∧ FsOp.renameFile tmp (state_file ["home", ".local", "state"]) ∈ ops) := by
  have hsave : SkeleState.save (fun _ => .ok ("\x7b\x7d")) ["home", ".local", "state"]
      skeleStateDefault
      = .ok [FsOp.createDirAll ["home", ".local", "state", "ripdoc"],
             FsOp.writeFile ["home", ".local", "state", "ripdoc", "skelebuild.json"]
               ("\x7b\x7d")] := rfl
  refine ⟨hsave, ?_⟩
  rintro ⟨ops, hok, tmp, content, _hw, hr⟩
  rw [hsave] at hok
  injection hok with hops
  rw [← hops] at hr
  rcases List.mem_cons.mp hr with h | h
  · exact FsOp.noConfusion h
  · rcases List.mem_cons.mp h with h2 | h2
    · exact FsOp.noConfusion h2
    · simp at h2

/-- C8 (amended): every successful save of the skelebuild state writes the
serialized state directly to the state-file path after creating its parent
directory; no temporary file and no rename are involved, so the write is not
performed atomically via rename. -/
theorem claim_C8 : ∀ (serialize : SkeleState → Except Unit String)
    (stateDir : FPath) (st : SkeleState) (content : String),
    serialize st = .ok content →
    SkeleState.save serialize stateDir st
      = .ok [FsOp.createDirAll ((state_file stateDir).dropLast),
             FsOp.writeFile (state_file stateDir) content]
    ∧ (∀ ops, SkeleState.save serialize stateDir st = .ok ops →
        ∀ t p, FsOp.renameFile t p ∉ ops) := by
  intro serialize stateDir st content hser
  have hsave : SkeleState.save serialize stateDir st
      = .ok [FsOp.createDirAll ((state_file stateDir).dropLast),
             FsOp.writeFile (state_file stateDir) content] := by
    unfold SkeleState.save
    rw [hser]
  refine ⟨hsave, ?_⟩
  intro ops hops t p hmem
  rw [hsave] at hops
  injection hops with hops2
  rw [← hops2] at hmem
  rcases List.mem_cons.mp hmem with h | h
  · exact FsOp.noConfusion h
  · rcases List.mem_cons.mp h with h2 | h2
    · exact FsOp.noConfusion h2
    · simp at h2

/-- Witness for C8: the amended theorem at a concrete serializer and state. -/
theorem claim_C8_witness :
    ((fun _ : SkeleState => (.ok ("\x7b\x7d") : Except Unit String)) skeleStateDefault
      = .ok ("\x7b\x7d"))
    ∧ SkeleState.save (fun _ => .ok ("\x7b\x7d")) ["st"] skeleStateDefault
      = .ok [FsOp.createDirAll ((state_file ["st"]).dropLast),
             FsOp.writeFile (state_file ["st"]) ("\x7b\x7d")] :=
  ⟨rfl, (claim_C8 (fun _ => .ok ("\x7b\x7d")) ["st"] skeleStateDefault
    ("\x7b\x7d") rfl).1⟩

theorem positionOf_spec (p : Nat → Bool) (l : List Nat) :
    ∀ pos, positionOf p l = some pos →
    ∃ hlt : pos < l.length, p (l.get ⟨pos, hlt⟩) = true := by
  induction l with
  | nil => intro pos h; exact absurd h (by simp [positionOf])
  | cons a rest ih =>
    intro pos h
    by_cases hp : p a = true
    · simp only [positionOf, hp, if_true, if_pos] at h
      injection h with h2
      subst h2
      exact ⟨by simp, hp⟩
    · simp only [positionOf, hp, Bool.false_eq_true, if_false,
        Option.map_eq_some'] at h
      · rcases h with ⟨q, hq, hqe⟩
        rcases ih q hq with ⟨hlt, hget⟩
        subst hqe
        refine ⟨by simp; omega, ?_⟩
        rw [List.get_cons_succ]
        exact hget

theorem positionOf_le (p : Nat → Bool) (l : List Nat) :
    ∀ (q : Nat) (hq : q < l.length), p (l.get ⟨q, hq⟩) = true →
    ∃ pos, positionOf p l = some pos ∧ pos ≤ q := by
  induction l with
  | nil =>
    intro q hq
    simp at hq
  | cons a rest ih =>
    intro q hq hp
    by_cases hpa : p a = true
    · exact ⟨0, by simp [positionOf, hpa], Nat.zero_le q⟩
    · cases q with
      | zero =>
        exact absurd hp hpa
      | succ q' =>
        rw [List.get_cons_succ] at hp
        rcases ih q' (by simp at hq; omega) hp with ⟨pos', hpos', hle⟩
        refine ⟨pos' + 1, ?_, by omega⟩
        simp [positionOf, hpa, hpos']

theorem selPhase1Ctx_mono (idx : SearchIndexM) (r : SearchResultM)
    (c1 : Finset Nat) : c1 ⊆ selPhase1Ctx idx r c1 := by
  unfold selPhase1Ctx
  split
  · split
    · split
      · exact (Finset.subset_insert _ _).trans Finset.subset_union_left
      · exact Finset.subset_insert _ _
    · exact Finset.Subset.refl _
  · exact Finset.Subset.refl _

theorem selPhase1_mono (idx : SearchIndexM) (results : List SearchResultM) :
    ∀ m c : Finset Nat,
    m ⊆ (selPhase1 idx results (m, c)).1
    ∧ c ⊆ (selPhase1 idx results (m, c)).2 := by
  induction results with
  | nil => intro m c; exact ⟨Finset.Subset.refl _, Finset.Subset.refl _⟩
  | cons r rest ih =>
    intro m c
    simp only [selPhase1]
    refine ⟨(Finset.subset_insert _ _).trans (ih _ _).1, ?_⟩
    exact (((Finset.subset_insert _ _).trans Finset.subset_union_left).trans
      (selPhase1Ctx_mono idx r _)).trans (ih _ _).2

theorem selPhase1_contrib (idx : SearchIndexM) (results : List SearchResultM) :
    ∀ m c : Finset Nat, ∀ r ∈ results,
    r.item_id ∈ (selPhase1 idx results (m, c)).1
    ∧ r.item_id ∈ (selPhase1 idx results (m, c)).2
    ∧ ∀ a ∈ r.ancestors, a ∈ (selPhase1 idx results (m, c)).2 := by
  induction results with
  | nil => intro m c r hr; exact absurd hr (List.not_mem_nil r)
  | cons r0 rest ih =>
    intro m c r hr
    simp only [selPhase1]
    rcases List.mem_cons.mp hr with h | h
    · subst h
      have hsub : insert r.item_id c ∪ r.ancestors.toFinset
          ⊆ (selPhase1 idx rest (insert r.item_id m,
              selPhase1Ctx idx r (insert r.item_id c ∪ r.ancestors.toFinset))).2 :=
        (selPhase1Ctx_mono idx r _).trans (selPhase1_mono idx rest _ _).2
      exact ⟨(selPhase1_mono idx rest _ _).1 (Finset.mem_insert_self _ _),
        hsub (Finset.mem_union_left _ (Finset.mem_insert_self _ _)),
        fun a ha => hsub (Finset.mem_union_right _ (List.mem_toFinset.mpr ha))⟩
    · exact ih _ _ r h

theorem selExpandLoop_cons_some (containers : Finset Nat) (e : SearchResultM)
    (rest : List SearchResultM) (c dc : Finset Nat) (pos : Nat)
    (h : positionOf (fun a => decide (a ∈ containers)) e.ancestors = some pos) :
    selExpandLoop containers (e :: rest) (c, dc)
    = selExpandLoop containers rest
        (insert e.item_id c ∪ (e.ancestors.drop (pos + 1)).toFinset,
         dc ∪ (e.ancestors.drop (pos + 1)).toFinset) := by
  simp only [selExpandLoop, h]

theorem selExpandLoop_cons_none (containers : Finset Nat) (e : SearchResultM)
    (rest : List SearchResultM) (c dc : Finset Nat)
    (h : positionOf (fun a => decide (a ∈ containers)) e.ancestors = none) :
    selExpandLoop containers (e :: rest) (c, dc)
    = selExpandLoop containers rest (c, dc) := by
  simp only [selExpandLoop, h]

theorem selExpandLoop_mono (containers : Finset Nat)
    (entries : List SearchResultM) :
    ∀ c dc : Finset Nat,
    c ⊆ (selExpandLoop containers entries (c, dc)).1
    ∧ dc ⊆ (selExpandLoop containers entries (c, dc)).2 := by
  induction entries with
  | nil => intro c dc; exact ⟨Finset.Subset.refl _, Finset.Subset.refl _⟩
  | cons e rest ih =>
    intro c dc
    cases hpos : positionOf (fun a => decide (a ∈ containers)) e.ancestors with
    | none => rw [selExpandLoop_cons_none _ _ _ _ _ hpos]; exact ih c dc
    | some pos =>
      rw [selExpandLoop_cons_some _ _ _ _ _ _ hpos]
      exact ⟨((Finset.subset_insert _ _).trans
          Finset.subset_union_left).trans (ih _ _).1,
        Finset.subset_union_left.trans (ih _ _).2⟩

theorem selExpandLoop_contrib (containers : Finset Nat)
    (entries : List SearchResultM) :
    ∀ c dc : Finset Nat, ∀ e ∈ entries, ∀ pos,
    positionOf (fun a => decide (a ∈ containers)) e.ancestors = some pos →
    e.item_id ∈ (selExpandLoop containers entries (c, dc)).1
    ∧ ∀ a ∈ e.ancestors.drop (pos + 1),
        a ∈ (selExpandLoop containers entries (c, dc)).1
        ∧ a ∈ (selExpandLoop containers entries (c, dc)).2 := by
  induction entries with
  | nil => intro c dc e he; exact absurd he (List.not_mem_nil e)
  | cons e0 rest ih =>
    intro c dc e he pos hpos
    rcases List.mem_cons.mp he with h | h
    · subst h
      rw [selExpandLoop_cons_some _ _ _ _ _ _ hpos]
      have h1 := (selExpandLoop_mono containers rest
        (insert e.item_id c ∪ (e.ancestors.drop (pos + 1)).toFinset)
        (dc ∪ (e.ancestors.drop (pos + 1)).toFinset)).1
      have h2 := (selExpandLoop_mono containers rest
        (insert e.item_id c ∪ (e.ancestors.drop (pos + 1)).toFinset)
        (dc ∪ (e.ancestors.drop (pos + 1)).toFinset)).2
      exact ⟨h1 (Finset.mem_union_left _ (Finset.mem_insert_self _ _)),
        fun a ha =>
          ⟨h1 (Finset.mem_union_right _ (List.mem_toFinset.mpr ha)),
           h2 (Finset.mem_union_right _ (List.mem_toFinset.mpr ha))⟩⟩
    · cases hpos0 : positionOf (fun a => decide (a ∈ containers)) e0.ancestors with
      | none => rw [selExpandLoop_cons_none _ _ _ _ _ hpos0]; exact ih _ _ e h pos hpos
      | some p0 => rw [selExpandLoop_cons_some _ _ _ _ _ _ hpos0]; exact ih _ _ e h pos hpos

theorem selExpandLoop_dc_inv (containers : Finset Nat)
    (entries : List SearchResultM) :
    ∀ c dc : Finset Nat, ∀ x, x ∈ (selExpandLoop containers entries (c, dc)).2 →
    x ∈ dc ∨ ∃ e ∈ entries, ∃ pos,
      positionOf (fun a => decide (a ∈ containers)) e.ancestors = some pos
      ∧ x ∈ e.ancestors.drop (pos + 1) := by
  induction entries with
  | nil => intro c dc x hx; exact Or.inl hx
  | cons e0 rest ih =>
    intro c dc x hx
    cases hpos0 : positionOf (fun a => decide (a ∈ containers)) e0.ancestors with
    | none =>
      rw [selExpandLoop_cons_none _ _ _ _ _ hpos0] at hx
      rcases ih _ _ x hx with h | ⟨e, he, pos, hp, hm⟩
      · exact Or.inl h
      · exact Or.inr ⟨e, List.mem_cons_of_mem _ he, pos, hp, hm⟩
    | some p0 =>
      rw [selExpandLoop_cons_some _ _ _ _ _ _ hpos0] at hx
      rcases ih _ _ x hx with h | ⟨e, he, pos, hp, hm⟩
      · rcases Finset.mem_union.mp h with h | h
        · exact Or.inl h
        · exact Or.inr ⟨e0, List.mem_cons_self _ _, p0, hpos0,
            List.mem_toFinset.mp h⟩
      · exact Or.inr ⟨e, List.mem_cons_of_mem _ he, pos, hp, hm⟩

theorem selPhase2_closure (idx : SearchIndexM) (results : List SearchResultM)
    (fs : Finset Nat) :
    (∀ r ∈ results,
      r.item_id ∈ (selPhase2 idx fs (selPhase1 idx results (∅, ∅)).1
          (selPhase1 idx results (∅, ∅)).2).1
      ∧ r.item_id ∈ (selPhase2 idx fs (selPhase1 idx results (∅, ∅)).1
          (selPhase1 idx results (∅, ∅)).2).2
      ∧ ∀ a ∈ r.ancestors,
          a ∈ (selPhase2 idx fs (selPhase1 idx results (∅, ∅)).1
            (selPhase1 idx results (∅, ∅)).2).2)
    ∧ (∀ id ∈ fs,
      id ∈ (selPhase2 idx fs (selPhase1 idx results (∅, ∅)).1
          (selPhase1 idx results (∅, ∅)).2).1
      ∧ id ∈ (selPhase2 idx fs (selPhase1 idx results (∅, ∅)).1
          (selPhase1 idx results (∅, ∅)).2).2
      ∧ ∀ e, idx.get id = some e → ∀ a ∈ e.ancestors,
          a ∈ (selPhase2 idx fs (selPhase1 idx results (∅, ∅)).1
            (selPhase1 idx results (∅, ∅)).2).2) := by
  simp only [selPhase2]
  constructor
  · intro r hr
    rcases selPhase1_contrib idx results ∅ ∅ r hr with ⟨h1, h2, h3⟩
    exact ⟨Finset.mem_union_left _ h1,
      Finset.mem_union_left _ (Finset.mem_union_left _ h2),
      fun a ha => Finset.mem_union_left _ (Finset.mem_union_left _ (h3 a ha))⟩
  · intro id hid
    refine ⟨Finset.mem_union_right _ hid,
      Finset.mem_union_left _ (Finset.mem_union_right _ hid), ?_⟩
    intro e hget a ha
    refine Finset.mem_union_right _ (Finset.mem_biUnion.mpr ⟨id, hid, ?_⟩)
    simp only [hget]
    exact List.mem_toFinset.mpr ha

theorem selClosure_new_noexpand (idx : SearchIndexM)
    (results : List SearchResultM) (fs m c : Finset Nat)
    (h1 : ∀ r ∈ results, r.item_id ∈ m ∧ r.item_id ∈ c
        ∧ ∀ a ∈ r.ancestors, a ∈ c)
    (h2 : ∀ id ∈ fs, id ∈ m ∧ id ∈ c
        ∧ ∀ e, idx.get id = some e → ∀ a ∈ e.ancestors, a ∈ c) :
    ((RenderSelectionM.new m c ∅ fs).matchesSet
        ⊆ (RenderSelectionM.new m c ∅ fs).context
      ∧ (RenderSelectionM.new m c ∅ fs).full_source
        ⊆ (RenderSelectionM.new m c ∅ fs).context)
    ∧ (∀ r ∈ results, r.item_id ∈ (RenderSelectionM.new m c ∅ fs).matchesSet
        ∧ r.item_id ∈ (RenderSelectionM.new m c ∅ fs).context
        ∧ ∀ a ∈ r.ancestors, a ∈ (RenderSelectionM.new m c ∅ fs).context)
    ∧ (∀ id ∈ fs, id ∈ (RenderSelectionM.new m c ∅ fs).matchesSet
        ∧ id ∈ (RenderSelectionM.new m c ∅ fs).context
        ∧ ∀ e, idx.get id = some e → ∀ a ∈ e.ancestors,
            a ∈ (RenderSelectionM.new m c ∅ fs).context)
    ∧ (∀ cid ∈ (RenderSelectionM.new m c ∅ fs).expanded, ∀ e ∈ idx.entries,
        ∀ q0 (hq0 : q0 < e.ancestors.length),
        e.ancestors.get ⟨q0, hq0⟩ = cid →
        e.item_id ∈ (RenderSelectionM.new m c ∅ fs).context
        ∧ ∀ q (hq : q < e.ancestors.length), q0 < q →
            e.ancestors.get ⟨q, hq⟩ ∈ (RenderSelectionM.new m c ∅ fs).context
            ∧ e.ancestors.get ⟨q, hq⟩
              ∈ (RenderSelectionM.new m c ∅ fs).expanded) := by
  simp only [RenderSelectionM.new]
  refine ⟨⟨Finset.subset_union_right.trans Finset.subset_union_left,
    Finset.subset_union_right⟩, ?_, ?_, ?_⟩
  · intro r hr
    rcases h1 r hr with ⟨ha1, ha2, ha3⟩
    exact ⟨ha1, Finset.mem_union_left _ (Finset.mem_union_left _ ha2),
      fun a ha => Finset.mem_union_left _ (Finset.mem_union_left _ (ha3 a ha))⟩
  · intro id hid
    rcases h2 id hid with ⟨hb1, hb2, hb3⟩
    exact ⟨hb1, Finset.mem_union_left _ (Finset.mem_union_left _ hb2),
      fun e hget a ha =>
        Finset.mem_union_left _ (Finset.mem_union_left _ (hb3 e hget a ha))⟩
  · intro cid hcid
    exact absurd hcid (Finset.not_mem_empty cid)

theorem selClosure_new_expand (idx : SearchIndexM)
    (results : List SearchResultM) (fs m c : Finset Nat)
    (hu : ∀ e ∈ idx.entries, ∀ e' ∈ idx.entries, e.item_id = e'.item_id → e = e')
    (ha : ∀ e ∈ idx.entries, ∀ p (hp : p < e.ancestors.length),
        ∃ e' ∈ idx.entries, e'.item_id = e.ancestors.get ⟨p, hp⟩
          ∧ e'.ancestors = e.ancestors.take p)
    (h1 : ∀ r ∈ results, r.item_id ∈ m ∧ r.item_id ∈ c
        ∧ ∀ a ∈ r.ancestors, a ∈ c)
    (h2 : ∀ id ∈ fs, id ∈ m ∧ id ∈ c
        ∧ ∀ e, idx.get id = some e → ∀ a ∈ e.ancestors, a ∈ c) :
    ((RenderSelectionM.new m
        (selExpandLoop (containersOf results) idx.entries (c, ∅)).1
        (containersOf results
          ∪ (selExpandLoop (containersOf results) idx.entries (c, ∅)).2)
        fs).matchesSet
        ⊆ (RenderSelectionM.new m
          (selExpandLoop (containersOf results) idx.entries (c, ∅)).1
          (containersOf results
            ∪ (selExpandLoop (containersOf results) idx.entries (c, ∅)).2)
          fs).context
      ∧ (RenderSelectionM.new m
          (selExpandLoop (containersOf results) idx.entries (c, ∅)).1
          (containersOf results
            ∪ (selExpandLoop (containersOf results) idx.entries (c, ∅)).2)
          fs).full_source
        ⊆ (RenderSelectionM.new m
          (selExpandLoop (containersOf results) idx.entries (c, ∅)).1
          (containersOf results
            ∪ (selExpandLoop (containersOf results) idx.entries (c, ∅)).2)
          fs).context)
    ∧ (∀ r ∈ results, r.item_id ∈ (RenderSelectionM.new m
          (selExpandLoop (containersOf results) idx.entries (c, ∅)).1
          (containersOf results
            ∪ (selExpandLoop (containersOf results) idx.entries (c, ∅)).2)
          fs).matchesSet
        ∧ r.item_id ∈ (RenderSelectionM.new m
          (selExpandLoop (containersOf results) idx.entries (c, ∅)).1
          (containersOf results
            ∪ (selExpandLoop (containersOf results) idx.entries (c, ∅)).2)
          fs).context
        ∧ ∀ a ∈ r.ancestors, a ∈ (RenderSelectionM.new m
          (selExpandLoop (containersOf results) idx.entries (c, ∅)).1
          (containersOf results
            ∪ (selExpandLoop (containersOf results) idx.entries (c, ∅)).2)
          fs).context)
    ∧ (∀ id ∈ fs, id ∈ (RenderSelectionM.new m
          (selExpandLoop (containersOf results) idx.entries (c, ∅)).1
          (containersOf results
            ∪ (selExpandLoop (containersOf results) idx.entries (c, ∅)).2)
          fs).matchesSet
        ∧ id ∈ (RenderSelectionM.new m
          (selExpandLoop (containersOf results) idx.entries (c, ∅)).1
          (containersOf results
            ∪ (selExpandLoop (containersOf results) idx.entries (c, ∅)).2)
          fs).context
        ∧ ∀ e, idx.get id = some e → ∀ a ∈ e.ancestors,
            a ∈ (RenderSelectionM.new m
              (selExpandLoop (containersOf results) idx.entries (c, ∅)).1
              (containersOf results
                ∪ (selExpandLoop (containersOf results) idx.entries (c, ∅)).2)
              fs).context)
    ∧ (∀ cid ∈ (RenderSelectionM.new m
          (selExpandLoop (containersOf results) idx.entries (c, ∅)).1
          (containersOf results
            ∪ (selExpandLoop (containersOf results) idx.entries (c, ∅)).2)
          fs).expanded, ∀ e ∈ idx.entries,
        ∀ q0 (hq0 : q0 < e.ancestors.length),
        e.ancestors.get ⟨q0, hq0⟩ = cid →
        e.item_id ∈ (RenderSelectionM.new m
          (selExpandLoop (containersOf results) idx.entries (c, ∅)).1
          (containersOf results
            ∪ (selExpandLoop (containersOf results) idx.entries (c, ∅)).2)
          fs).context
        ∧ ∀ q (hq : q < e.ancestors.length), q0 < q →
            e.ancestors.get ⟨q, hq⟩ ∈ (RenderSelectionM.new m
              (selExpandLoop (containersOf results) idx.entries (c, ∅)).1
              (containersOf results
                ∪ (selExpandLoop (containersOf results) idx.entries (c, ∅)).2)
              fs).context
            ∧ e.ancestors.get ⟨q, hq⟩ ∈ (RenderSelectionM.new m
              (selExpandLoop (containersOf results) idx.entries (c, ∅)).1
              (containersOf results
                ∪ (selExpandLoop (containersOf results) idx.entries (c, ∅)).2)
              fs).expanded) := by
  simp only [RenderSelectionM.new]
  have hcsub : c ⊆ (selExpandLoop (containersOf results) idx.entries (c, ∅)).1 :=
    (selExpandLoop_mono (containersOf results) idx.entries c ∅).1
  refine ⟨⟨Finset.subset_union_right.trans Finset.subset_union_left,
    Finset.subset_union_right⟩, ?_, ?_, ?_⟩
  · intro r hr
    rcases h1 r hr with ⟨ha1, ha2, ha3⟩
    exact ⟨ha1, Finset.mem_union_left _ (Finset.mem_union_left _ (hcsub ha2)),
      fun a haa => Finset.mem_union_left _
        (Finset.mem_union_left _ (hcsub (ha3 a haa)))⟩
  · intro id hid
    rcases h2 id hid with ⟨hb1, hb2, hb3⟩
    exact ⟨hb1, Finset.mem_union_left _ (Finset.mem_union_left _ (hcsub hb2)),
      fun e hget a haa => Finset.mem_union_left _
        (Finset.mem_union_left _ (hcsub (hb3 e hget a haa)))⟩
  · intro cid hcid e he q0 hq0 hecid
    have hkey : ∃ pos2,
        positionOf (fun a => decide (a ∈ containersOf results)) e.ancestors
          = some pos2 ∧ pos2 ≤ q0 := by
      rcases Finset.mem_union.mp hcid with hC | hdc
      · have hpq : (fun a => decide (a ∈ containersOf results))
            (e.ancestors.get ⟨q0, hq0⟩) = true := by
          simp only [hecid]
          exact decide_eq_true hC
        exact positionOf_le _ _ q0 hq0 hpq
      · rcases selExpandLoop_dc_inv (containersOf results) idx.entries c ∅
            cid hdc with h0 | ⟨e1, he1, pos1, hp1, hm1⟩
        · exact absurd h0 (Finset.not_mem_empty cid)
        · rcases List.mem_iff_getElem.mp hm1 with ⟨i, hi, hei⟩
          have hlen1 : pos1 + 1 + i < e1.ancestors.length := by
            rw [List.length_drop] at hi
            omega
          have hj : e1.ancestors.get ⟨pos1 + 1 + i, hlen1⟩ = cid := by
            rw [List.get_eq_getElem, ← List.getElem_drop e1.ancestors]
            exact hei
          rcases ha e1 he1 (pos1 + 1 + i) hlen1 with ⟨e', he', hid', hanc'⟩
          rcases ha e he q0 hq0 with ⟨e'', he'', hid'', hanc''⟩
          have heq : e' = e'' :=
            hu e' he' e'' he'' (by rw [hid', hj, hid'', hecid])
          have htake : e1.ancestors.take (pos1 + 1 + i)
              = e.ancestors.take q0 := by
            rw [← hanc', heq, hanc'']
          have hjq : pos1 + 1 + i = q0 := by
            have hlen := congrArg List.length htake
            rw [List.length_take, List.length_take] at hlen
            omega
          rcases positionOf_spec _ _ pos1 hp1 with ⟨hplt, hpc⟩
          have hplt0 : pos1 < q0 := by omega
          have hplt2 : pos1 < e.ancestors.length := by omega
          have hpl1 : pos1 < (List.take (pos1 + 1 + i) e1.ancestors).length := by
            rw [List.length_take]
            omega
          have hsame : e1.ancestors.get ⟨pos1, hplt⟩
              = e.ancestors.get ⟨pos1, hplt2⟩ := by
            have ht1 : (List.take (pos1 + 1 + i) e1.ancestors).get ⟨pos1, hpl1⟩
                = e1.ancestors.get ⟨pos1, hplt⟩ := by
              simp only [List.get_eq_getElem]
              exact List.getElem_take e1.ancestors
            have ht2 : (List.take q0 e.ancestors).get ⟨pos1, htake ▸ hpl1⟩
                = e.ancestors.get ⟨pos1, hplt2⟩ := by
              simp only [List.get_eq_getElem]
              exact List.getElem_take e.ancestors
            have hstep : (List.take (pos1 + 1 + i) e1.ancestors).get ⟨pos1, hpl1⟩
                = (List.take q0 e.ancestors).get ⟨pos1, htake ▸ hpl1⟩ := by
              simp only [List.get_eq_getElem]
              exact List.getElem_of_eq htake hpl1
            rw [← ht1, hstep, ht2]
          have hpq : (fun a => decide (a ∈ containersOf results))
              (e.ancestors.get ⟨pos1, hplt2⟩) = true := by
            rw [← hsame]
            exact hpc
          rcases positionOf_le (fun a => decide (a ∈ containersOf results))
              e.ancestors pos1 hplt2 hpq with ⟨pos2, hpos2, hle2⟩
          exact ⟨pos2, hpos2, by omega⟩
    rcases hkey with ⟨pos2, hpos2, hle2⟩
    rcases selExpandLoop_contrib (containersOf results) idx.entries c ∅
        e he pos2 hpos2 with ⟨hein, hdrop⟩
    constructor
    · exact Finset.mem_union_left _ (Finset.mem_union_left _ hein)
    · intro q hq hq0q
      have hmemdrop : e.ancestors.get ⟨q, hq⟩
          ∈ e.ancestors.drop (pos2 + 1) := by
        refine List.mem_iff_getElem.mpr ⟨q - (pos2 + 1), ?_, ?_⟩
        · rw [List.length_drop]
          omega
        · rw [List.getElem_drop, List.get_eq_getElem]
          congr 1
          omega
      rcases hdrop _ hmemdrop with ⟨hc1, hc2⟩
      exact ⟨Finset.mem_union_left _ (Finset.mem_union_left _ hc1),
        Finset.mem_union_right _ hc2⟩

/-- C3: for every search index, result list, expand_containers flag and
full-source id set, the selection built by `build_render_selection` satisfies
selection closure — every result id and every full-source id is in `matches`
and in `context` with all of its ancestors in `context`, and (under a
well-formed index: unique entry ids, and each ancestor's own entry carrying
the corresponding ancestor chain) every indexed descendant of a container in
`expanded` is in `context`, together with the intermediate ancestors between
the container and that descendant, those intermediate ancestors also being
in `expanded`. -/
theorem claim_C3 (idx : SearchIndexM) (results : List SearchResultM)
    (ec : Bool) (fs : Finset Nat) (sel : RenderSelectionM)
    (hsel : sel = build_render_selection idx results ec fs)
    (hu : ∀ e ∈ idx.entries, ∀ e' ∈ idx.entries, e.item_id = e'.item_id → e = e')
    (ha : ∀ e ∈ idx.entries, ∀ p (hp : p < e.ancestors.length),
        ∃ e' ∈ idx.entries, e'.item_id = e.ancestors.get ⟨p, hp⟩
          ∧ e'.ancestors = e.ancestors.take p) :
    (sel.matchesSet ⊆ sel.context ∧ sel.full_source ⊆ sel.context)
    ∧ (∀ r ∈ results, r.item_id ∈ sel.matchesSet ∧ r.item_id ∈ sel.context
        ∧ ∀ a ∈ r.ancestors, a ∈ sel.context)
    ∧ (∀ id ∈ fs, id ∈ sel.matchesSet ∧ id ∈ sel.context
        ∧ ∀ e, idx.get id = some e → ∀ a ∈ e.ancestors, a ∈ sel.context)
    ∧ (∀ cid ∈ sel.expanded, ∀ e ∈ idx.entries,
        ∀ q0 (hq0 : q0 < e.ancestors.length),
        e.ancestors.get ⟨q0, hq0⟩ = cid →
        e.item_id ∈ sel.context
        ∧ ∀ q (hq : q < e.ancestors.length), q0 < q →
            e.ancestors.get ⟨q, hq⟩ ∈ sel.context
            ∧ e.ancestors.get ⟨q, hq⟩ ∈ sel.expanded) := by
  subst hsel
  cases ec with
  | false =>
    simp only [build_render_selection, reduceIte]
    exact selClosure_new_noexpand idx results fs _ _
      (selPhase2_closure idx results fs).1 (selPhase2_closure idx results fs).2
  | true =>
    simp only [build_render_selection, reduceIte]
    by_cases hcont : containersOf results = ∅
    · rw [if_pos hcont]
      exact selClosure_new_noexpand idx results fs _ _
        (selPhase2_closure idx results fs).1 (selPhase2_closure idx results fs).2
    · rw [if_neg hcont]
      exact selClosure_new_expand idx results fs _ _ hu ha
        (selPhase2_closure idx results fs).1 (selPhase2_closure idx results fs).2

theorem claim_C3_witness :
    (∀ e ∈ ([⟨1, SearchItemKind.kModule, []⟩, ⟨2, SearchItemKind.kStruct, [1]⟩,
        ⟨3, SearchItemKind.kFunction, [1, 2]⟩] : List SearchResultM),
      ∀ e' ∈ ([⟨1, SearchItemKind.kModule, []⟩, ⟨2, SearchItemKind.kStruct, [1]⟩,
        ⟨3, SearchItemKind.kFunction, [1, 2]⟩] : List SearchResultM),
      e.item_id = e'.item_id → e = e')
    ∧ (∀ e ∈ ([⟨1, SearchItemKind.kModule, []⟩, ⟨2, SearchItemKind.kStruct, [1]⟩,
        ⟨3, SearchItemKind.kFunction, [1, 2]⟩] : List SearchResultM),
      ∀ p (hp : p < e.ancestors.length),
      ∃ e' ∈ ([⟨1, SearchItemKind.kModule, []⟩, ⟨2, SearchItemKind.kStruct, [1]⟩,
        ⟨3, SearchItemKind.kFunction, [1, 2]⟩] : List SearchResultM),
        e'.item_id = e.ancestors.get ⟨p, hp⟩
        ∧ e'.ancestors = e.ancestors.take p)
    ∧ ((3 : Nat) ∈ (build_render_selection
        ⟨[⟨1, SearchItemKind.kModule, []⟩, ⟨2, SearchItemKind.kStruct, [1]⟩,
          ⟨3, SearchItemKind.kFunction, [1, 2]⟩], fun _ => none⟩
        [⟨1, SearchItemKind.kModule, []⟩] true {3}).context
      ∧ ∀ q (hq : q < ([1, 2] : List Nat).length), 1 < q →
          ([1, 2] : List Nat).get ⟨q, hq⟩ ∈ (build_render_selection
            ⟨[⟨1, SearchItemKind.kModule, []⟩, ⟨2, SearchItemKind.kStruct, [1]⟩,
              ⟨3, SearchItemKind.kFunction, [1, 2]⟩], fun _ => none⟩
            [⟨1, SearchItemKind.kModule, []⟩] true {3}).context
          ∧ ([1, 2] : List Nat).get ⟨q, hq⟩ ∈ (build_render_selection
            ⟨[⟨1, SearchItemKind.kModule, []⟩, ⟨2, SearchItemKind.kStruct, [1]⟩,
              ⟨3, SearchItemKind.kFunction, [1, 2]⟩], fun _ => none⟩
            [⟨1, SearchItemKind.kModule, []⟩] true {3}).expanded) :=
  ⟨by decide, by decide,
    (claim_C3
      ⟨[⟨1, SearchItemKind.kModule, []⟩, ⟨2, SearchItemKind.kStruct, [1]⟩,
        ⟨3, SearchItemKind.kFunction, [1, 2]⟩], fun _ => none⟩
      [⟨1, SearchItemKind.kModule, []⟩] true {3} _ rfl
      (by decide) (by decide)).2.2.2
      2 (by decide) ⟨3, SearchItemKind.kFunction, [1, 2]⟩ (by decide)
      1 (by decide) (by decide)⟩

/-- C6: refuted (code bug).  The shared visited set installed by
`Renderer::with_visited` is never consulted: `RenderState::new` always
starts from an empty per-walk visited set, so a renderer whose shared set
already contains an item id still re-emits that item's text (first
conjunct: item 1 is in the shared set, yet its text `fn f();` is emitted).
Moreover modules are not exempt from the per-walk suppression: a module id
already in the visited set makes `render_item` return the empty string
immediately (second conjunct), contradicting the claimed module exemption. -/
theorem claim_C6 :
    renderCrate
      ⟨0, fun n =>
        if n = 0 then
          some ⟨0, some (("m").data), true, none, none, RInner.module [1]⟩
        else if n = 1 then
          some ⟨1, some (("f").data), true, none, none, RInner.leaf⟩
        else none⟩
      (with_visited
        ⟨true, false, [], none, true, none, none,
         fun _ => ("fn f();\n").data, fun _ g => g, fun _ => [],
         fun _ => false, fun _ => none, fun _ _ => false⟩ {1}) 5
      = Except.ok (("fn f();\n").data)
    ∧ (walk
      ⟨0, fun n =>
        if n = 0 then
          some ⟨0, some (("m").data), true, none, none, RInner.module [1]⟩
        else if n = 1 then
          some ⟨1, some (("f").data), true, none, none, RInner.leaf⟩
        else none⟩
      ⟨true, false, [], none, true, none, none,
       fun _ => ("fn f();\n").data, fun _ g => g, fun _ => [],
       fun _ => false, fun _ => none, fun _ _ => false⟩ 5
      (RTask.item [] 0 false)
      ⟨false, false, {0}, none⟩).1 = [] := by
  exact ⟨rfl, rfl⟩

/-- C9: refuted (code bug).  The `initial_current_file` configured through
`Renderer::with_current_file` is never read by the walk: `RenderState::new`
sets `current_file` to `None`, so the very first labelled item always gets a
`// ripdoc:source:` header even when its span filename equals the configured
initial file — the third claimed suppression case does not exist.  Here item
1 has span `src/lib.rs`, the renderer is configured with that same initial
file, and the output still starts with the source label. -/
theorem claim_C9 :
    renderCrate
      ⟨0, fun n =>
        if n = 0 then
          some ⟨0, some (("m").data), true, none, none, RInner.module [1]⟩
        else if n = 1 then
          some ⟨1, some (("f").data), true, some (("src/lib.rs").data),
            none, RInner.leaf⟩
        else none⟩
      (with_current_file
        ⟨true, true, [], none, true, none, none,
         fun _ => ("fn f();\n").data, fun _ g => g, fun _ => [],
         fun _ => false, fun _ => none, fun _ _ => false⟩
        (some (("src/lib.rs").data))) 5
      = Except.ok (sourceLabel (("src/lib.rs").data) ++ ("fn f();\n").data) := by
  rfl

theorem should_filter_flag (cfg : Renderer) (root : Nat) (ppfx : Str)
    (item : RItem) (st : St) :
    (should_filter cfg root ppfx item st).2.filter_matched
      = (st.filter_matched
        || decide (item.id ≠ root ∧ cfg.filter ≠ []
            ∧ filter_match cfg ppfx item = FilterMatch.Hit)) := by
  unfold should_filter
  by_cases h1 : item.id = root
  · simp [h1]
  · by_cases h2 : cfg.filter = []
    · simp [h1, h2]
    · cases hm : filter_match cfg ppfx item <;> simp [h1, h2, hm]

theorem should_filter_rest (cfg : Renderer) (root : Nat) (ppfx : Str)
    (item : RItem) (st : St) :
    (should_filter cfg root ppfx item st).2.visited = st.visited
    ∧ (should_filter cfg root ppfx item st).2.gap_state = st.gap_state
    ∧ (should_filter cfg root ppfx item st).2.current_file
        = st.current_file := by
  unfold should_filter
  by_cases h1 : item.id = root
  · simp [h1]
  · by_cases h2 : cfg.filter = []
    · simp [h1, h2]
    · cases hm : filter_match cfg ppfx item <;> simp [h1, h2, hm]

theorem should_filter_skip (cfg : Renderer) (root : Nat) (ppfx : Str)
    (item : RItem) (st : St) (h1 : item.id ≠ root) (h2 : cfg.filter ≠ []) :
    ((should_filter cfg root ppfx item st).1 = true
      ↔ filter_match cfg ppfx item = FilterMatch.Miss) := by
  unfold should_filter
  cases hm : filter_match cfg ppfx item <;> simp [h1, h2, hm]

theorem mark_skipped_flag (cfg : Renderer) (st : St) :
    (mark_skipped cfg st).filter_matched = st.filter_matched := by
  unfold mark_skipped
  split <;> rfl

theorem clear_pending_gap_flag (st : St) :
    (clear_pending_gap st).filter_matched = st.filter_matched := rfl

theorem emit_gap_flag (cfg : Renderer) (st : St)
    (output indent next_block : Str) :
    (emit_gap_if_needed cfg st output indent next_block).2.filter_matched
      = st.filter_matched := by
  unfold emit_gap_if_needed
  split <;> rfl

theorem st3_flag_aux (b : Bool) (id : Nat) (s : St) :
    (if b then { s with visited := insert id s.visited } else s).filter_matched
      = s.filter_matched := by
  split <;> rfl

theorem finish_item_flag (cfg : Renderer) (item : RItem) (body : Str × St) :
    (finish_item cfg item body).2.filter_matched
      = body.2.filter_matched := by
  unfold finish_item
  dsimp only
  split
  · split
    · split <;> rfl
    · rfl
  · split
    · split <;> rfl
    · rfl

theorem chainFlag {H : Prop} {x y z : Bool}
    (h1 : y = x ∨ (y = true ∧ H)) (h2 : z = y ∨ (z = true ∧ H)) :
    z = x ∨ (z = true ∧ H) := by
  rcases h2 with h2 | h2
  · rcases h1 with h1 | h1
    · exact Or.inl (h2.trans h1)
    · exact Or.inr ⟨h2.trans h1.1, h1.2⟩
  · exact Or.inr h2

theorem should_filter_inv (cr : CrateM) (cfg : Renderer) (ppfx : Str)
    (item : RItem) (st : St) (id : Nat) (hidx : cr.index id = some item) :
    (should_filter cfg cr.root ppfx item st).2.filter_matched
        = st.filter_matched
    ∨ ((should_filter cfg cr.root ppfx item st).2.filter_matched = true
        ∧ hitRecorded cr cfg) := by
  rw [should_filter_flag]
  by_cases hd : item.id ≠ cr.root ∧ cfg.filter ≠ []
      ∧ filter_match cfg ppfx item = FilterMatch.Hit
  · exact Or.inr ⟨by simp [hd],
      ⟨ppfx, item, ⟨id, hidx⟩, hd.1, hd.2.1, hd.2.2⟩⟩
  · exact Or.inl (by simp [hd])

theorem render_module_inv (cr : CrateM) (cfg : Renderer)
    (rec : RTask → St → Str × St)
    (hrec : ∀ t s, (rec t s).2.filter_matched = s.filter_matched
      ∨ ((rec t s).2.filter_matched = true ∧ hitRecorded cr cfg)) :
    ∀ ppfx item kids s,
    (render_module cfg rec ppfx item kids s).2.filter_matched
        = s.filter_matched
    ∨ ((render_module cfg rec ppfx item kids s).2.filter_matched = true
        ∧ hitRecorded cr cfg) := by
  intro ppfx item kids s
  unfold render_module
  split
  · exact Or.inl rfl
  · exact hrec _ _

theorem render_use_inv (cr : CrateM) (cfg : Renderer)
    (rec : RTask → St → Str × St)
    (hrec : ∀ t s, (rec t s).2.filter_matched = s.filter_matched
      ∨ ((rec t s).2.filter_matched = true ∧ hitRecorded cr cfg)) :
    ∀ ppfx item imp s,
    (render_use cr cfg rec ppfx item imp s).2.filter_matched
        = s.filter_matched
    ∨ ((render_use cr cfg rec ppfx item imp s).2.filter_matched = true
        ∧ hitRecorded cr cfg) := by
  intro ppfx item imp s
  unfold render_use
  split
  · rcases hrec (RTask.useKids ppfx _ [] false) s with h | h
    · exact Or.inl ((clear_pending_gap_flag _).trans h)
    · exact Or.inr ⟨(clear_pending_gap_flag _).trans h.1, h.2⟩
  · exact Or.inl rfl
  · exact Or.inl rfl

theorem render_item_core_inv (cr : CrateM) (cfg : Renderer)
    (rec : RTask → St → Str × St)
    (hrec : ∀ t s, (rec t s).2.filter_matched = s.filter_matched
      ∨ ((rec t s).2.filter_matched = true ∧ hitRecorded cr cfg)) :
    ∀ ppfx item s,
    (render_item_core cr cfg rec ppfx item s).2.filter_matched
        = s.filter_matched
    ∨ ((render_item_core cr cfg rec ppfx item s).2.filter_matched = true
        ∧ hitRecorded cr cfg) := by
  intro ppfx item s
  unfold render_item_core
  split
  · exact Or.inl rfl
  · rcases item with ⟨iid, iname, ivis, ispan, idocs, iinner⟩
    cases iinner with
    | module kids =>
      dsimp only
      rcases render_module_inv cr cfg rec hrec ppfx
          ⟨iid, iname, ivis, ispan, idocs, RInner.module kids⟩ kids s with h | h
      · exact Or.inl ((finish_item_flag _ _ _).trans h)
      · exact Or.inr ⟨(finish_item_flag _ _ _).trans h.1, h.2⟩
    | useItem imp =>
      dsimp only
      rcases render_use_inv cr cfg rec hrec ppfx
          ⟨iid, iname, ivis, ispan, idocs, RInner.useItem imp⟩ imp s with h | h
      · exact Or.inl ((finish_item_flag _ _ _).trans h)
      · exact Or.inr ⟨(finish_item_flag _ _ _).trans h.1, h.2⟩
    | leaf =>
      dsimp only
      refine Or.inl ((finish_item_flag _ _ _).trans ?_)
      split <;> rfl
    | implItem =>
      dsimp only
      exact Or.inl (finish_item_flag _ _ _)
    | otherInner =>
      dsimp only
      exact Or.inl (finish_item_flag _ _ _)

theorem walkStep_inv (cr : CrateM) (cfg : Renderer)
    (rec : RTask → St → Str × St)
    (hrec : ∀ t s, (rec t s).2.filter_matched = s.filter_matched
      ∨ ((rec t s).2.filter_matched = true ∧ hitRecorded cr cfg)) :
    ∀ t s, (walkStep cr cfg rec t s).2.filter_matched = s.filter_matched
      ∨ ((walkStep cr cfg rec t s).2.filter_matched = true
        ∧ hitRecorded cr cfg) := by
  intro t s
  cases t with
  | item ppfx id force_private =>
    simp only [walkStep]
    cases hidx : cr.index id with
    | none => exact Or.inl rfl
    | some item =>
      dsimp only
      split
      · exact Or.inl rfl
      · split
        · exact Or.inl rfl
        · split
          · exact Or.inl rfl
          · split
            · exact Or.inl (by split <;> rfl)
            · split
              · split
                · exact should_filter_inv cr cfg ppfx item _ id hidx
                · exact chainFlag
                    (should_filter_inv cr cfg ppfx item
                      { s with visited := insert item.id s.visited } id hidx)
                    (render_item_core_inv cr cfg rec hrec ppfx item _)
              · split
                · exact should_filter_inv cr cfg ppfx item _ id hidx
                · exact chainFlag
                    (should_filter_inv cr cfg ppfx item s id hidx)
                    (render_item_core_inv cr cfg rec hrec ppfx item _)
  | modChildren ppfx parent indent kids acc =>
    simp only [walkStep]
    cases kids with
    | nil => exact Or.inl rfl
    | cons k rest =>
      dsimp only
      split
      · rcases hrec (RTask.modChildren ppfx parent indent rest acc)
            (mark_skipped cfg s) with h | h
        · exact Or.inl (h.trans (mark_skipped_flag cfg s))
        · exact Or.inr h
      · split
        · split
          · have h2 := hrec (RTask.modChildren ppfx parent indent rest
              ((emit_gap_if_needed cfg (rec (RTask.item ppfx k false) s).2
                acc indent (rec (RTask.item ppfx k false) s).1).1
                ++ (rec (RTask.item ppfx k false) s).1))
              (emit_gap_if_needed cfg (rec (RTask.item ppfx k false) s).2
                acc indent (rec (RTask.item ppfx k false) s).1).2
            rw [emit_gap_flag] at h2
            exact chainFlag (hrec (RTask.item ppfx k false) s) h2
          · have h2 := hrec (RTask.modChildren ppfx parent indent rest acc)
              (mark_skipped cfg (rec (RTask.item ppfx k false) s).2)
            rw [mark_skipped_flag] at h2
            exact chainFlag (hrec (RTask.item ppfx k false) s) h2
        · rcases hrec (RTask.modChildren ppfx parent indent rest acc)
              (mark_skipped cfg s) with h | h
          · exact Or.inl (h.trans (mark_skipped_flag cfg s))
          · exact Or.inr h
  | useKids ppfx kids acc any_rendered =>
    simp only [walkStep]
    cases kids with
    | nil => exact Or.inl rfl
    | cons k rest =>
      dsimp only
      split
      · exact hrec _ _
      · split
        · have h2 := hrec (RTask.useKids ppfx rest
            ((emit_gap_if_needed cfg (rec (RTask.item ppfx k true) s).2
              acc [] (rec (RTask.item ppfx k true) s).1).1
              ++ (rec (RTask.item ppfx k true) s).1) true)
            (emit_gap_if_needed cfg (rec (RTask.item ppfx k true) s).2
              acc [] (rec (RTask.item ppfx k true) s).1).2
          rw [emit_gap_flag] at h2
          exact chainFlag (hrec (RTask.item ppfx k true) s) h2
        · split
          · have h2 := hrec (RTask.useKids ppfx rest acc any_rendered)
              (mark_skipped cfg (rec (RTask.item ppfx k true) s).2)
            rw [mark_skipped_flag] at h2
            exact chainFlag (hrec (RTask.item ppfx k true) s) h2
          · exact chainFlag (hrec (RTask.item ppfx k true) s)
              (hrec (RTask.useKids ppfx rest acc any_rendered) _)

theorem walk_inv (cr : CrateM) (cfg : Renderer) :
    ∀ fuel t s, (walk cr cfg fuel t s).2.filter_matched = s.filter_matched
      ∨ ((walk cr cfg fuel t s).2.filter_matched = true
        ∧ hitRecorded cr cfg) := by
  intro fuel
  induction fuel with
  | zero => intro t s; exact Or.inl rfl
  | succ n ih =>
    intro t s
    simp only [walk]
    exact walkStep_inv cr cfg (walk cr cfg n) ih t s

theorem filter_match_eq (cfg : Renderer) (ppfx : Str) (item : RItem)
    (nm : Str) (hn : item.name = some nm) :
    filter_match cfg ppfx item
      = (if splitOnColons cfg.filter
            = (splitOnColons (ppush ppfx nm)).drop 1 then
          FilterMatch.Hit
        else if ((splitOnColons (ppush ppfx nm)).drop 1).isPrefixOf
            (splitOnColons cfg.filter) then FilterMatch.PrefixMatch
        else if (splitOnColons cfg.filter).isPrefixOf
            ((splitOnColons (ppush ppfx nm)).drop 1) then
          FilterMatch.Suffix
        else FilterMatch.Miss) := by
  unfold filter_match
  rw [hn]

theorem walk_flag_mono (cr : CrateM) (cfg : Renderer) :
    ∀ fuel t s, s.filter_matched = true →
    (walk cr cfg fuel t s).2.filter_matched = true := by
  intro fuel t s h
  rcases walk_inv cr cfg fuel t s with hh | hh
  · exact hh.trans h
  · exact hh.1

theorem renderCrate_error_iff (cr : CrateM) (cfg : Renderer) (fuel : Nat) :
    renderCrate cr cfg fuel
        = Except.error (RenderErr.FilterNotMatched cfg.filter)
      ↔ cfg.filter ≠ []
        ∧ (walk cr cfg fuel (RTask.item [] cr.root false)
            StInit).2.filter_matched = false := by
  unfold renderCrate
  dsimp only
  by_cases hc : (!cfg.filter.isEmpty
      && !(walk cr cfg fuel (RTask.item [] cr.root false)
        StInit).2.filter_matched) = true
  · rw [if_pos hc]
    simp only [Bool.and_eq_true, Bool.not_eq_true'] at hc
    constructor
    · intro _
      refine ⟨fun he => ?_, hc.2⟩
      rw [he] at hc
      exact absurd hc.1 (by simp)
    · intro _
      rfl
  · rw [if_neg hc]
    constructor
    · intro he
      exact absurd he (by simp)
    · rintro ⟨hne, hflag⟩
      exact absurd (by simp [hflag, List.isEmpty_iff, hne]) hc

/-- C2: for every crate and filter, `filter_match` classifies a candidate
exactly as claimed — `Hit` iff the filter components equal the candidate's
components below the crate root, `Prefix` iff the candidate's components are
a proper prefix of the filter's (descent continues), `Suffix` iff the
filter's are a proper prefix of the candidate's (the subtree renders),
`Miss` otherwise (the candidate is skipped: `should_filter` returns true
exactly on `Miss`); a `Hit` and only a `Hit` raises `filter_matched`, the
flag only ever rises during the walk and only by recording a `Hit`; and
`RenderState::render` returns `FilterNotMatched(filter)` exactly when the
filter is non-empty and the flag is still down at the end of the walk (so a
non-erroring filtered render recorded a `Hit`). -/
theorem claim_C2 (cr : CrateM) (cfg : Renderer) :
    (∀ ppfx (item : RItem) (nm : Str), item.name = some nm →
      ((filter_match cfg ppfx item = FilterMatch.Hit
        ↔ splitOnColons cfg.filter
            = (splitOnColons (ppush ppfx nm)).drop 1)
      ∧ (filter_match cfg ppfx item = FilterMatch.PrefixMatch
        ↔ ¬(splitOnColons cfg.filter
              = (splitOnColons (ppush ppfx nm)).drop 1)
          ∧ ((splitOnColons (ppush ppfx nm)).drop 1).isPrefixOf
              (splitOnColons cfg.filter) = true)
      ∧ (filter_match cfg ppfx item = FilterMatch.Suffix
        ↔ ¬(splitOnColons cfg.filter
              = (splitOnColons (ppush ppfx nm)).drop 1)
          ∧ ¬(((splitOnColons (ppush ppfx nm)).drop 1).isPrefixOf
              (splitOnColons cfg.filter) = true)
          ∧ (splitOnColons cfg.filter).isPrefixOf
              ((splitOnColons (ppush ppfx nm)).drop 1) = true)
      ∧ (filter_match cfg ppfx item = FilterMatch.Miss
        ↔ ¬(splitOnColons cfg.filter
              = (splitOnColons (ppush ppfx nm)).drop 1)
          ∧ ¬(((splitOnColons (ppush ppfx nm)).drop 1).isPrefixOf
              (splitOnColons cfg.filter) = true)
          ∧ ¬((splitOnColons cfg.filter).isPrefixOf
              ((splitOnColons (ppush ppfx nm)).drop 1) = true))))
    ∧ (∀ ppfx (item : RItem), item.name = none →
        filter_match cfg ppfx item = FilterMatch.PrefixMatch)
    ∧ (∀ ppfx (item : RItem) (st : St),
        item.id ≠ cr.root → cfg.filter ≠ [] →
        (((should_filter cfg cr.root ppfx item st).1 = true
          ↔ filter_match cfg ppfx item = FilterMatch.Miss)
        ∧ (should_filter cfg cr.root ppfx item st).2.filter_matched
            = (st.filter_matched
              || decide (filter_match cfg ppfx item
                  = FilterMatch.Hit))))
    ∧ (∀ fuel,
        renderCrate cr cfg fuel
            = Except.error (RenderErr.FilterNotMatched cfg.filter)
          ↔ cfg.filter ≠ []
            ∧ (walk cr cfg fuel (RTask.item [] cr.root false)
                StInit).2.filter_matched = false)
    ∧ (∀ fuel t s, s.filter_matched = true →
        (walk cr cfg fuel t s).2.filter_matched = true)
    ∧ (∀ fuel t s,
        (walk cr cfg fuel t s).2.filter_matched = s.filter_matched
        ∨ ((walk cr cfg fuel t s).2.filter_matched = true
          ∧ hitRecorded cr cfg))
    ∧ (∀ fuel, cfg.filter ≠ [] →
        renderCrate cr cfg fuel
            = Except.error (RenderErr.FilterNotMatched cfg.filter)
        ∨ hitRecorded cr cfg) := by
  refine ⟨?_, ?_, ?_, renderCrate_error_iff cr cfg, walk_flag_mono cr cfg,
    walk_inv cr cfg, ?_⟩
  · intro ppfx item nm hn
    rw [filter_match_eq cfg ppfx item nm hn]
    simp only [List.drop_one]
    by_cases h1 : splitOnColons cfg.filter
        = (splitOnColons (ppush ppfx nm)).tail
    · simp [h1]
    · by_cases h2 : (splitOnColons (ppush ppfx nm)).tail
          <+: splitOnColons cfg.filter
      · simp [h1, h2]
      · by_cases h3 : splitOnColons cfg.filter
            <+: (splitOnColons (ppush ppfx nm)).tail
        · simp [h1, h2, h3]
        · simp [h1, h2, h3]
  · intro ppfx item hn
    unfold filter_match
    rw [hn]
  · intro ppfx item st h1 h2
    refine ⟨should_filter_skip cfg cr.root ppfx item st h1 h2, ?_⟩
    rw [should_filter_flag]
    simp [h1, h2]
  · intro fuel hne
    by_cases hflag : (walk cr cfg fuel (RTask.item [] cr.root false)
        StInit).2.filter_matched = false
    · exact Or.inl ((renderCrate_error_iff cr cfg fuel).mpr ⟨hne, hflag⟩)
    · right
      rcases walk_inv cr cfg fuel (RTask.item [] cr.root false) StInit
          with h | h
      · exact absurd h hflag
      · exact h.2

theorem claim_C2_witness :
    (renderCrate
        ⟨0, fun n =>
          if n = 0 then
            some ⟨0, some (("m").data), true, none, none, RInner.module [1]⟩
          else if n = 1 then
            some ⟨1, some (("f").data), true, none, none, RInner.leaf⟩
          else none⟩
        ⟨true, false, ("f").data, none, true, none, none,
         fun _ => ("fn f();\n").data, fun _ g => g, fun _ => [],
         fun _ => false, fun _ => none, fun _ _ => false⟩ 5
        = Except.error (RenderErr.FilterNotMatched (("f").data))
      ↔ ("f").data ≠ []
        ∧ (walk
          ⟨0, fun n =>
            if n = 0 then
              some ⟨0, some (("m").data), true, none, none, RInner.module [1]⟩
            else if n = 1 then
              some ⟨1, some (("f").data), true, none, none, RInner.leaf⟩
            else none⟩
          ⟨true, false, ("f").data, none, true, none, none,
           fun _ => ("fn f();\n").data, fun _ g => g, fun _ => [],
           fun _ => false, fun _ => none, fun _ _ => false⟩ 5
          (RTask.item [] 0 false) StInit).2.filter_matched = false)
    ∧ (walk
        ⟨0, fun n =>
          if n = 0 then
            some ⟨0, some (("m").data), true, none, none, RInner.module [1]⟩
          else if n = 1 then
            some ⟨1, some (("f").data), true, none, none, RInner.leaf⟩
          else none⟩
        ⟨true, false, ("f").data, none, true, none, none,
         fun _ => ("fn f();\n").data, fun _ g => g, fun _ => [],
         fun _ => false, fun _ => none, fun _ _ => false⟩ 5
        (RTask.item [] 0 false) StInit).2.filter_matched = true :=
  ⟨(claim_C2
      ⟨0, fun n =>
        if n = 0 then
          some ⟨0, some (("m").data), true, none, none, RInner.module [1]⟩
        else if n = 1 then
          some ⟨1, some (("f").data), true, none, none, RInner.leaf⟩
        else none⟩
      ⟨true, false, ("f").data, none, true, none, none,
       fun _ => ("fn f();\n").data, fun _ g => g, fun _ => [],
       fun _ => false, fun _ => none, fun _ _ => false⟩).2.2.2.1 5,
   by decide⟩

/-- C7 (amended): during the grouping pass, a target whose resolution or
crate load fails is reported, raises `had_errors` and is skipped while the
remaining entries are still processed, and a raw file of a targets group
that fails to read is likewise caught; but a failing `RawSource` entry and
a failing render pass abort `build_output` with `?`; and a rebuild whose
`build_output` and write succeed exits 0 regardless of the `had_errors`
flag, so caught per-entry failures do not make the exit status non-zero. -/
theorem claim_C7 (w : RebuildWorld) :
    (∀ (t : SkeleTarget) (rest : List SkeleEntry) (crates : List String)
        (groups : List SkeleGroup) (he : Bool) (e : String),
      w.resolve_target t.path = .error e →
      groupEntries w (SkeleEntry.target t :: rest) (crates, groups, he)
        = groupEntries w rest (crates, groups, true))
    ∧ (∀ (t : SkeleTarget) (rt : String) (rrest crates : List String)
        (groups : List SkeleGroup) (he : Bool) (e : String),
      rt ∉ crates → w.read_crate rt = .error e →
      addResolvedTarget w t (rt :: rrest) (crates, groups, he)
        = addResolvedTarget w t rrest (crates, groups, true))
    ∧ (∀ (root f : String) (frest : List String) (out : Str) (he : Bool)
        (e : String),
      w.readToString (w.absOf root f) = .error e →
      rawFilesLoop w root (f :: frest) (out, he)
        = rawFilesLoop w root frest (out, true))
    ∧ (∀ (raw : SkeleRawSource) (rest : List SkeleGroup) (out : Str)
        (lf : Option String) (he : Bool) (e : String),
      w.readToString raw.file = .error e →
      renderGroups w (SkeleGroup.RawSource raw :: rest) (out, lf, he)
        = .error e)
    ∧ (∀ (root : String) (ts : List SkeleTarget) (rest : List SkeleGroup)
        (out : Str) (lf : Option String) (he : Bool) (e : String),
      w.render_ext root ts lf = .error e →
      renderGroups w (SkeleGroup.Targets root ts :: rest) (out, lf, he)
        = .error e)
    ∧ (∀ (writeFile : String → Str → Except String Unit) (st : SkeleState)
        (out : Str) (flag : Bool),
      build_output w st = .ok (out, flag) →
      writeFile (st.output_path.getD ("skeleton.md")) out = .ok () →
      runExitCode (rebuild w writeFile st) = 0) := by
  refine ⟨?_, ?_, ?_, ?_, ?_, ?_⟩
  · intro t rest crates groups he e hres
    simp only [groupEntries, hres]
  · intro t rt rrest crates groups he e hmem hrc
    simp only [addResolvedTarget, hrc, if_neg hmem]
  · intro root f frest out he e hread
    simp only [rawFilesLoop, hread]
  · intro raw rest out lf he e hread
    simp only [renderGroups, render_raw_source, hread]
  · intro root ts rest out lf he e hrender
    simp only [renderGroups, hrender]
  · intro writeFile st out flag hb hw
    simp only [rebuild, hb, hw, runExitCode]

theorem claim_C7_witness :
    build_output
      ⟨fun _ => .error ("no such target"), fun _ => .ok (), fun _ _ => [],
       fun _ f => f, fun _ => .error ("io"), fun _ _ _ => .ok ([], none)⟩
      ⟨none, [SkeleEntry.target ⟨("bad"), false, false, false⟩], true⟩
      = Except.ok ([], true)
    ∧ runExitCode (rebuild
      ⟨fun _ => .error ("no such target"), fun _ => .ok (), fun _ _ => [],
       fun _ f => f, fun _ => .error ("io"), fun _ _ _ => .ok ([], none)⟩
      (fun _ _ => .ok ())
      ⟨none, [SkeleEntry.target ⟨("bad"), false, false, false⟩], true⟩) = 0 :=
  ⟨rfl,
   (claim_C7
      ⟨fun _ => .error ("no such target"), fun _ => .ok (), fun _ _ => [],
       fun _ f => f, fun _ => .error ("io"),
       fun _ _ _ => .ok ([], none)⟩).2.2.2.2.2
     (fun _ _ => .ok ())
     ⟨none, [SkeleEntry.target ⟨("bad"), false, false, false⟩], true⟩
     [] true rfl rfl⟩

/-- C7, counterexample to the unqualified claim: a failing `RawSource` entry
aborts `build_output` (the trailing injection entry is never rendered and no
output is produced), and a rebuild with a failed (caught) target entry still
returns `Ok`, so its exit status is 0, not non-zero. -/
theorem claim_C7_counterexample :
    build_output
      ⟨fun _ => .error ("no such target"), fun _ => .ok (), fun _ _ => [],
       fun _ f => f, fun _ => .error ("io"), fun _ _ _ => .ok ([], none)⟩
      ⟨none, [SkeleEntry.rawSource ⟨("f.rs"), none, none, none⟩,
              SkeleEntry.injection ("x")], true⟩
      = Except.error ("io")
    ∧ rebuild
      ⟨fun _ => .error ("no such target"), fun _ => .ok (), fun _ _ => [],
       fun _ f => f, fun _ => .error ("io"), fun _ _ _ => .ok ([], none)⟩
      (fun _ _ => .ok ())
      ⟨none, [SkeleEntry.target ⟨("bad"), false, false, false⟩], true⟩
      = Except.ok ()
    ∧ (groupEntries
      ⟨fun _ => .error ("no such target"), fun _ => .ok (), fun _ _ => [],
       fun _ f => f, fun _ => .error ("io"), fun _ _ _ => .ok ([], none)⟩
      [SkeleEntry.target ⟨("bad"), false, false, false⟩]
      ([], [], false)).2.2 = true :=
  ⟨rfl, rfl, rfl⟩
